import Mathlib

/-!
Verification of the Analysis Orchestration Pipeline of the STARTUPai
repository (src/src/startup/agent.py, plus the delete route of
src/src/startup/api.py), as a shallow embedding in Lean 4.

The external text-generation capability is modelled as a function from a
prompt string to `Except String String`: `Except.error e` models the
underlying API call raising an exception whose message is `e`
(`str(e)` in the Python handler), `Except.ok t` models a successful
completion with `response.text = t`.

Wall-clock time (`datetime.now()`) is modelled by an explicit `Nat`
argument threaded to each operation that reads the clock.

Python `Dict[str, Any]` / JSON-compatible values are modelled by the
inductive `Json` below.  The program only ever builds strings, lists and
string-keyed mappings inside an analysis record (every section value is a
dict of strings produced by `_analyze_with_gemini`), so `Json` has exactly
those three constructors.
-/

/-- JSON-compatible values as stored in analysis records. -/
inductive Json where
| str (s : String)
| arr (xs : List Json)
| obj (fields : List (String × Json))

/-- Decimal digits of a natural number, most significant first.  Used to
render the modelled timestamps. -/
def natChars (n : Nat) : List Char :=
  if h : n < 10 then [Char.ofNat (48 + n)]
  else natChars (n / 10) ++ [Char.ofNat (48 + n % 10)]
termination_by n
decreasing_by
  exact Nat.div_lt_self (by omega) (by omega)

/-- Model of `str(created_at)`: the stable textual form of the timestamp. -/
def dtStr (t : Nat) : String := String.mk (natChars t)

/-- Model of `datetime.now().isoformat()` at modelled time `t`. -/
def isoStr (t : Nat) : String := String.mk (natChars t)

/-- Lower-case hexadecimal digit, as emitted by Python `json.dumps` in
the escape `\uXXXX`. -/
def hexDig (d : Nat) : Char :=
  if d < 10 then Char.ofNat (48 + d) else Char.ofNat (87 + d)

/-- Four lower-case hex digits of `m` (`"%04x" % m`). -/
def hex4 (m : Nat) : List Char :=
  [hexDig (m / 4096 % 16), hexDig (m / 256 % 16), hexDig (m / 16 % 16), hexDig (m % 16)]

/-- Escape of one character in a JSON string literal, as performed by
`json.dumps` with its default `ensure_ascii=True`: the two-character
escapes for quote, backslash and the named control characters, `\uXXXX`
for the remaining control characters and for every character outside
`0x20..0x7e`, and a surrogate pair for characters above `0xFFFF`. -/
def escChar (c : Char) : List Char :=
  if c = '"' then ['\\', '"']
  else if c = '\\' then ['\\', '\\']
  else if c = '\n' then ['\\', 'n']
  else if c = '\r' then ['\\', 'r']
  else if c = '\t' then ['\\', 't']
  else if c.toNat = 8 then ['\\', 'b']
  else if c.toNat = 12 then ['\\', 'f']
  else if c.toNat < 32 ∨ 126 < c.toNat then
    if c.toNat < 65536 then '\\' :: 'u' :: hex4 c.toNat
    else '\\' :: 'u' :: hex4 (55296 + (c.toNat - 65536) / 1024) ++
         '\\' :: 'u' :: hex4 (56320 + (c.toNat - 65536) % 1024)
  else [c]

/-- Rendering of a JSON string literal: opening quote, escaped body,
closing quote. -/
def renderStr (s : String) : List Char :=
  '"' :: (s.data.map escChar).flatten ++ ['"']

/-- Indentation emitted by `json.dumps(..., indent=2)` at nesting level
`n`. -/
def ind (n : Nat) : List Char := List.replicate (2 * n) ' '

mutual

/-- Model of `json.dumps(v, indent=2)` at nesting level `n`, producing the
character list of the serialized form. -/
def renderVal : Nat → Json → List Char
| _, Json.str s => renderStr s
| _, Json.arr [] => ['[', ']']
| n, Json.arr (x :: xs) =>
    '[' :: '\n' :: renderArr (n + 1) x xs ++ '\n' :: (ind n ++ [']'])
| _, Json.obj [] => ['{', '}']
| n, Json.obj ((k, v) :: fs) =>
    '{' :: '\n' :: renderObj (n + 1) k v fs ++ '\n' :: (ind n ++ ['}'])
termination_by n v => sizeOf v
decreasing_by all_goals (simp_wf <;> omega)

/-- Comma/newline-separated, indented rendering of the elements of a
non-empty JSON array. -/
def renderArr : Nat → Json → List Json → List Char
| n, x, [] => ind n ++ renderVal n x
| n, x, y :: ys => ind n ++ renderVal n x ++ ',' :: '\n' :: renderArr n y ys
termination_by n x xs => sizeOf x + sizeOf xs
decreasing_by all_goals (simp_wf <;> omega)

/-- Comma/newline-separated, indented rendering of the fields of a
non-empty JSON object, each as `"key": value`. -/
def renderObj : Nat → String → Json → List (String × Json) → List Char
| n, k, v, [] => ind n ++ renderStr k ++ ':' :: ' ' :: renderVal n v
| n, k, v, (k2, v2) :: gs =>
    ind n ++ renderStr k ++ ':' :: ' ' :: renderVal n v ++
      ',' :: '\n' :: renderObj n k2 v2 gs
termination_by n k v gs => sizeOf v + sizeOf gs
decreasing_by all_goals (simp_wf <;> omega)

end

/-- Model of `json.dumps(v, indent=2)` as a string. -/
def json_dumps (v : Json) : String := String.mk (renderVal 0 v)

/-- The apostrophe character, used by the model of Python `repr`. -/
def apos : Char := Char.ofNat 39

/-- Quote character chosen by Python `repr` for a string: an apostrophe,
unless the string contains an apostrophe and no double quote. -/
def pyQuote (s : String) : Char :=
  if s.data.contains apos ∧ ¬ s.data.contains '"' then '"' else apos

/-- Escape of one character inside a Python string `repr` using quote
character `q`. -/
def pyEscChar (q c : Char) : List Char :=
  if c = '\\' then ['\\', '\\']
  else if c = q then ['\\', q]
  else if c = '\n' then ['\\', 'n']
  else if c = '\r' then ['\\', 'r']
  else if c = '\t' then ['\\', 't']
  else if c.toNat < 32 ∨ c.toNat = 127 then
    ['\\', 'x', hexDig (c.toNat / 16 % 16), hexDig (c.toNat % 16)]
  else [c]

/-- Model of Python `repr` of a string. -/
def pyReprStr (s : String) : List Char :=
  pyQuote s :: (s.data.map (pyEscChar (pyQuote s))).flatten ++ [pyQuote s]

mutual

/-- Model of Python `repr` of a JSON-like value: `repr` for strings,
bracketed comma-separated `repr`s for lists, and brace-wrapped
`key: value` pairs for dicts. -/
def pyReprV : Json → List Char
| Json.str s => pyReprStr s
| Json.arr [] => ['[', ']']
| Json.arr (x :: xs) => '[' :: pyReprArr x xs ++ [']']
| Json.obj [] => ['{', '}']
| Json.obj ((k, v) :: fs) => '{' :: pyReprObj k v fs ++ ['}']
termination_by v => sizeOf v
decreasing_by all_goals (simp_wf <;> omega)

/-- Comma-separated `repr`s of the elements of a non-empty list. -/
def pyReprArr : Json → List Json → List Char
| x, [] => pyReprV x
| x, y :: ys => pyReprV x ++ ',' :: ' ' :: pyReprArr y ys
termination_by x xs => sizeOf x + sizeOf xs
decreasing_by all_goals (simp_wf <;> omega)

/-- Comma-separated `repr(key): repr(value)` pairs of a non-empty dict. -/
def pyReprObj : String → Json → List (String × Json) → List Char
| k, v, [] => pyReprStr k ++ ':' :: ' ' :: pyReprV v
| k, v, (k2, v2) :: gs =>
    pyReprStr k ++ ':' :: ' ' :: pyReprV v ++ ',' :: ' ' :: pyReprObj k2 v2 gs
termination_by k v gs => sizeOf v + sizeOf gs
decreasing_by all_goals (simp_wf <;> omega)

end

/-- Model of Python `str` applied to a JSON-like value: the string itself
for strings, `repr`-based rendering for lists and dicts. -/
def pyStr : Json → String
| Json.str s => s
| v => String.mk (pyReprV v)

/-- The external text-generation capability: a prompt string is answered
with a completion text, or the call fails/raises with a message. -/
abbrev Svc := String → Except String String

/-- Data structure for startup analysis results (the `StartupAnalysis`
dataclass of `agent.py`); `created_at` is the modelled
construction-time clock value. -/
structure StartupAnalysis where
  market_research : Json
  customer_analysis : Json
  business_model : Json
  technical_feasibility : Json
  financial_projections : Json
  go_to_market : Json
  risk_assessment : Json
  recommendations : List String
  created_at : Nat

/-- The agent's mutable state: the in-memory `analysis_history` list. -/
structure AgentState where
  analysis_history : List StartupAnalysis

/-- `StartupAIAgent.__init__`: history starts empty. -/
def initAgent : AgentState := { analysis_history := [] }

/-- `StartupAIAgent.get_analysis_history`. -/
def get_analysis_history (st : AgentState) : List StartupAnalysis :=
  st.analysis_history

/-- The prompt built inside `_analyze_with_gemini` (the triple-quoted
f-string, with its literal indentation). -/
def geminiPrompt (startup_idea task : String) : String :=
  "\n            As an expert startup analyst, provide detailed analysis for: " ++ task ++
  "\n            \n            Startup Idea: " ++ startup_idea ++
  "\n            \n            Please provide your analysis in a structured format with clear sections and actionable insights.\n            "

/-- `StartupAIAgent._analyze_with_gemini`: one service call; a successful
completion is wrapped as the dict with keys `analysis` and `source`, a
raised exception is caught and wrapped as the dict with keys `error` and
`source`. -/
def analyze_with_gemini (svc : Svc) (startup_idea task : String) : Json :=
  match svc (geminiPrompt startup_idea task) with
  | Except.ok text => Json.obj [("analysis", Json.str text), ("source", Json.str "Gemini")]
  | Except.error e => Json.obj [("error", Json.str e), ("source", Json.str "Gemini")]

/-- The fixed `tasks` list of `analyze_startup_idea`: section name and
task description, in source order. -/
def tasks : List (String × String) :=
  [("market_research", "Analyze market size, trends, and competitive landscape"),
   ("customer_analysis", "Define target customers and their pain points"),
   ("business_model", "Design comprehensive business model and revenue streams"),
   ("technical_feasibility", "Evaluate technical requirements and feasibility"),
   ("financial_projections", "Create financial projections and funding requirements"),
   ("go_to_market", "Develop go-to-market strategy and launch plan"),
   ("risk_assessment", "Identify potential risks and mitigation strategies"),
   ("recommendations", "Provide actionable recommendations and next steps")]

/-- The `results` dict built by the loop of `analyze_startup_idea`: one
`_analyze_with_gemini` outcome per task, keyed by section name, in loop
order. -/
def runTasks (svc : Svc) (startup_idea : String) : List (String × Json) :=
  tasks.map (fun t => (t.1, analyze_with_gemini svc startup_idea t.2))

/-- Lookup in the `results` dict; `none` models a `KeyError`. -/
def lookupRes (results : List (String × Json)) (k : String) : Option Json :=
  (results.find? (fun p => p.1 == k)).map (fun p => p.2)

/-- Coercion applied to `results["recommendations"]`:
`results["recommendations"] if isinstance(results["recommendations"], list)
else [str(results["recommendations"])]`.  The first branch is typed
`List[str]` by the dataclass annotation, so a list value is read back as
its list of strings; any non-list value (in particular the dict that
`_analyze_with_gemini` always returns) is wrapped as the one-element list
of its Python `str` form. -/
def asStrList : Json → Option (List String)
| Json.arr xs => xs.mapM (fun x => match x with | Json.str s => some s | _ => none)
| _ => none

/-- The `recommendations=` argument of the `StartupAnalysis` constructor
call in `analyze_startup_idea`. -/
def coerceRecs (v : Json) : List String :=
  match asStrList v with
  | some l => l
  | none => [pyStr v]

/-- `StartupAIAgent.analyze_startup_idea` without its history side
effect: run all eight section tasks, then assemble the record from the
`results` dict (each field a dict lookup, `none` modelling the only
structurally possible failure, a `KeyError` during assembly).  `now` is
the modelled `datetime.now()` at record construction. -/
def analyze_startup_idea (svc : Svc) (now : Nat) (startup_idea : String) :
    Option StartupAnalysis :=
  let results := runTasks svc startup_idea
  match lookupRes results "market_research", lookupRes results "customer_analysis",
        lookupRes results "business_model", lookupRes results "technical_feasibility",
        lookupRes results "financial_projections", lookupRes results "go_to_market",
        lookupRes results "risk_assessment", lookupRes results "recommendations" with
  | some mr, some ca, some bm, some tf, some fp, some gm, some ra, some rc =>
    some { market_research := mr, customer_analysis := ca, business_model := bm,
           technical_feasibility := tf, financial_projections := fp, go_to_market := gm,
           risk_assessment := ra, recommendations := coerceRecs rc, created_at := now }
  | _, _, _, _, _, _, _, _ => none

/-- The record that `analyze_startup_idea` provably assembles: each
section is its own `_analyze_with_gemini` outcome, the recommendations
section is coerced, and `created_at` is the construction-time clock. -/
def mkAnalysis (svc : Svc) (now : Nat) (startup_idea : String) : StartupAnalysis :=
  { market_research := analyze_with_gemini svc startup_idea "Analyze market size, trends, and competitive landscape",
    customer_analysis := analyze_with_gemini svc startup_idea "Define target customers and their pain points",
    business_model := analyze_with_gemini svc startup_idea "Design comprehensive business model and revenue streams",
    technical_feasibility := analyze_with_gemini svc startup_idea "Evaluate technical requirements and feasibility",
    financial_projections := analyze_with_gemini svc startup_idea "Create financial projections and funding requirements",
    go_to_market := analyze_with_gemini svc startup_idea "Develop go-to-market strategy and launch plan",
    risk_assessment := analyze_with_gemini svc startup_idea "Identify potential risks and mitigation strategies",
    recommendations := coerceRecs (analyze_with_gemini svc startup_idea "Provide actionable recommendations and next steps"),
    created_at := now }

/-- One full `analyze_startup_idea` call against agent state `st`:
the assembled record is appended to `analysis_history` and returned. -/
def analyzeStep (svc : Svc) (now : Nat) (startup_idea : String) (st : AgentState) :
    Option (StartupAnalysis × AgentState) :=
  (analyze_startup_idea svc now startup_idea).map
    (fun a => (a, { analysis_history := st.analysis_history ++ [a] }))

/-- A sequence of `analyze_startup_idea` calls, each given by its clock
value and idea string, run in order against an agent state. -/
def runCalls (svc : Svc) (calls : List (Nat × String)) (st : AgentState) : AgentState :=
  calls.foldl
    (fun s c =>
      match analyzeStep svc c.1 c.2 s with
      | some p => p.2
      | none => s) st

/-- The `analysis.__dict__` mapping passed to `json.dumps(...,
default=str)`: the seven sections, the recommendations list, and the
timestamp rendered through `str` (the `default=str` fallback), in
dataclass field order. -/
def analysisDict (a : StartupAnalysis) : Json :=
  Json.obj
    [("market_research", a.market_research),
     ("customer_analysis", a.customer_analysis),
     ("business_model", a.business_model),
     ("technical_feasibility", a.technical_feasibility),
     ("financial_projections", a.financial_projections),
     ("go_to_market", a.go_to_market),
     ("risk_assessment", a.risk_assessment),
     ("recommendations", Json.arr (a.recommendations.map Json.str)),
     ("created_at", Json.str (dtStr a.created_at))]

/-- ASCII lower-casing of one character, as applied by Python
`str.lower` to the ASCII range. -/
def charLower (c : Char) : Char :=
  if 65 ≤ c.toNat ∧ c.toNat ≤ 90 then Char.ofNat (c.toNat + 32) else c

/-- Model of Python `format.lower()` (ASCII range; the recognized format
names are ASCII). -/
def pyLower (s : String) : String := String.mk (s.data.map charLower)

/-- Model of `chr(10).join(...)` over a list of strings. -/
def joinNl : List String → String
| [] => ""
| [s] => s
| s :: ss => s ++ "\n" ++ joinNl ss

/-- `StartupAIAgent._convert_to_markdown`: the fixed markdown template,
one heading per section with its `json.dumps(..., indent=2)` body, then
the bulleted recommendations list and a trailing newline. -/
def convert_to_markdown (a : StartupAnalysis) : String :=
  "# Startup Analysis Report\nGenerated on: " ++ dtStr a.created_at ++
  "\n\n## Market Research\n" ++ json_dumps a.market_research ++
  "\n\n## Customer Analysis\n" ++ json_dumps a.customer_analysis ++
  "\n\n## Business Model\n" ++ json_dumps a.business_model ++
  "\n\n## Technical Feasibility\n" ++ json_dumps a.technical_feasibility ++
  "\n\n## Financial Projections\n" ++ json_dumps a.financial_projections ++
  "\n\n## Go-to-Market Strategy\n" ++ json_dumps a.go_to_market ++
  "\n\n## Risk Assessment\n" ++ json_dumps a.risk_assessment ++
  "\n\n## Recommendations\n" ++ joinNl (a.recommendations.map (fun r => "- " ++ r)) ++
  "\n"

/-- `StartupAIAgent.export_analysis`: case-insensitive dispatch on the
format string; `Except.error` models the raised `ValueError`. -/
def export_analysis (a : StartupAnalysis) (format : String) : Except String String :=
  if pyLower format = "json" then Except.ok (json_dumps (analysisDict a))
  else if pyLower format = "markdown" then Except.ok (convert_to_markdown a)
  else Except.error ("Unsupported format: " ++ format)

/-- The pitch-deck prompt of `generate_pitch_deck` (the triple-quoted
f-string embedding `json.dumps(analysis.__dict__, indent=2, default=str)`). -/
def pitchPrompt (a : StartupAnalysis) : String :=
  "\n        Based on the following startup analysis, create a compelling pitch deck structure:\n        \n        " ++
  json_dumps (analysisDict a) ++
  "\n        \n        Include:\n        1. Problem Statement\n        2. Solution Overview\n        3. Market Opportunity\n        4. Business Model\n        5. Competitive Advantage\n        6. Financial Projections\n        7. Go-to-Market Strategy\n        8. Team & Execution Plan\n        9. Funding Requirements\n        10. Call to Action\n        "

/-- `StartupAIAgent.generate_pitch_deck`: one service call; success is
wrapped with keys `pitch_deck` and `generated_at`, a raised exception is
caught and returned as the dict with single key `error`.  The agent
state is returned unchanged in both cases (the method never touches
`analysis_history`). -/
def generate_pitch_deck (svc : Svc) (now : Nat) (a : StartupAnalysis) (st : AgentState) :
    Json × AgentState :=
  match svc (pitchPrompt a) with
  | Except.ok text =>
      (Json.obj [("pitch_deck", Json.str text), ("generated_at", Json.str (isoStr now))], st)
  | Except.error e => (Json.obj [("error", Json.str e)], st)

/-- The validation prompt of `validate_business_model` (the triple-quoted
f-string embedding `json.dumps(business_model, indent=2)`). -/
def validatePrompt (business_model : Json) : String :=
  "\n        Validate and improve this business model:\n        \n        " ++
  json_dumps business_model ++
  "\n        \n        Provide:\n        1. Strengths and weaknesses\n        2. Potential improvements\n        3. Risk factors\n        4. Scalability assessment\n        5. Revenue optimization suggestions\n        "

/-- `StartupAIAgent.validate_business_model`: one service call; success is
wrapped with keys `validation` and `validated_at`, a raised exception is
caught and returned as the dict with single key `error`.  The agent
state is returned unchanged in both cases. -/
def validate_business_model (svc : Svc) (now : Nat) (business_model : Json) (st : AgentState) :
    Json × AgentState :=
  match svc (validatePrompt business_model) with
  | Except.ok text =>
      (Json.obj [("validation", Json.str text), ("validated_at", Json.str (isoStr now))], st)
  | Except.error e => (Json.obj [("error", Json.str e)], st)

/-- Value of a hexadecimal digit character, used by the structural JSON
parser when decoding `\uXXXX` escapes. -/
def hexVal (c : Char) : Option Nat :=
  if 48 ≤ c.toNat ∧ c.toNat ≤ 57 then some (c.toNat - 48)
  else if 97 ≤ c.toNat ∧ c.toNat ≤ 102 then some (c.toNat - 87)
  else if 65 ≤ c.toNat ∧ c.toNat ≤ 70 then some (c.toNat - 55)
  else none

/-- Value of four hexadecimal digit characters. -/
def hex4Val (a b c d : Char) : Option Nat :=
  match hexVal a, hexVal b, hexVal c, hexVal d with
  | some w, some x, some y, some z => some (w * 4096 + x * 256 + y * 16 + z)
  | _, _, _, _ => none

/-- Decoding of a single-character JSON string escape. -/
def unescape (e : Char) : Option Char :=
  if e = '"' then some '"'
  else if e = '\\' then some '\\'
  else if e = '/' then some '/'
  else if e = 'n' then some '\n'
  else if e = 'r' then some '\r'
  else if e = 't' then some '\t'
  else if e = 'b' then some (Char.ofNat 8)
  else if e = 'f' then some (Char.ofNat 12)
  else none

/-- First four characters of a list, if present. -/
def take4 : List Char → Option (Char × Char × Char × Char × List Char)
| a :: b :: c :: d :: r => some (a, b, c, d, r)
| _ => none

/-- Parse four hexadecimal digits into their value. -/
def parseU (r : List Char) : Option (Nat × List Char) :=
  match take4 r with
  | none => none
  | some (a, b, c, d, r2) =>
    match hex4Val a b c d with
    | none => none
    | some m => some (m, r2)

/-- Decode one JSON string escape (the input starts after the
backslash): single-character escapes, `\uXXXX`, and a high/low surrogate
pair combined into one character. -/
def parseEsc : List Char → Option (Char × List Char)
| [] => none
| e :: r1 =>
  if e = 'u' then
    match parseU r1 with
    | none => none
    | some (m, r2) =>
      if 55296 ≤ m ∧ m ≤ 56319 then
        match r2 with
        | '\\' :: 'u' :: r4 =>
          (match parseU r4 with
          | none => none
          | some (m2, r5) =>
            if 56320 ≤ m2 ∧ m2 ≤ 57343 then
              some (Char.ofNat (65536 + (m - 55296) * 1024 + (m2 - 56320)), r5)
            else none)
        | _ => none
      else some (Char.ofNat m, r2)
  else (unescape e).map (fun ch => (ch, r1))

/-- Structural JSON parser for the body of a string literal (after the
opening quote), fueled by one unit per decoded character: returns the
decoded characters and the input after the closing quote. -/
def parseStrAux : Nat → List Char → Option (List Char × List Char)
| 0, _ => none
| fuel + 1, s =>
  match s with
  | [] => none
  | c :: r =>
    if c = '"' then some ([], r)
    else if c = '\\' then
      match parseEsc r with
      | none => none
      | some (ch, r2) => (parseStrAux fuel r2).map (fun p => (ch :: p.1, p.2))
    else (parseStrAux fuel r).map (fun p => (c :: p.1, p.2))

/-- JSON insignificant whitespace. -/
def isWsChar (c : Char) : Bool :=
  c == ' ' || c == '\n' || c == '\t' || c == '\r'

/-- Skip insignificant whitespace. -/
def skipWs : List Char → List Char
| [] => []
| c :: r => if isWsChar c then skipWs r else c :: r

mutual

/-- Structural JSON parser for one value (fueled): strings, arrays and
objects, mirroring the grammar of the values the program serializes. -/
def parseVal : Nat → List Char → Option (Json × List Char)
| 0, _ => none
| fuel + 1, s =>
  match skipWs s with
  | '"' :: r => (parseStrAux (r.length + 1) r).map (fun p => (Json.str (String.mk p.1), p.2))
  | '{' :: r =>
    match skipWs r with
    | '}' :: r2 => some (Json.obj [], r2)
    | r2 => parseObjItems fuel r2
  | '[' :: r =>
    match skipWs r with
    | ']' :: r2 => some (Json.arr [], r2)
    | r2 => parseArrItems fuel r2
  | _ => none

/-- Parser for the comma-separated elements of a non-empty array, up to
and including the closing bracket. -/
def parseArrItems : Nat → List Char → Option (Json × List Char)
| 0, _ => none
| fuel + 1, s =>
  match parseVal fuel s with
  | none => none
  | some (v, r) =>
    match skipWs r with
    | ',' :: r2 =>
      match parseArrItems fuel r2 with
      | some (Json.arr xs, r3) => some (Json.arr (v :: xs), r3)
      | _ => none
    | ']' :: r2 => some (Json.arr [v], r2)
    | _ => none

/-- Parser for the comma-separated fields of a non-empty object, up to
and including the closing brace. -/
def parseObjItems : Nat → List Char → Option (Json × List Char)
| 0, _ => none
| fuel + 1, s =>
  match skipWs s with
  | '"' :: r =>
    match parseStrAux (r.length + 1) r with
    | none => none
    | some (k, r1) =>
      match skipWs r1 with
      | ':' :: r2 =>
        match parseVal fuel r2 with
        | none => none
        | some (v, r3) =>
          match skipWs r3 with
          | ',' :: r4 =>
            match parseObjItems fuel r4 with
            | some (Json.obj fs, r5) => some (Json.obj ((String.mk k, v) :: fs), r5)
            | _ => none
          | '}' :: r4 => some (Json.obj [(String.mk k, v)], r4)
          | _ => none
      | _ => none
  | _ => none

end

/-- Structural JSON parse of a whole string: one value, followed only by
whitespace. -/
def json_loads (s : String) : Option Json :=
  match parseVal (s.data.length + 1) s.data with
  | some (v, r) => if skipWs r = [] then some v else none
  | none => none

/-- Field lookup in a parsed JSON object. -/
def jsonLookup (j : Json) (k : String) : Option Json :=
  match j with
  | Json.obj fs => (fs.find? (fun p => p.1 == k)).map (fun p => p.2)
  | _ => none

mutual

/-- Node count of a JSON value, a lower bound for parser fuel. -/
def sizeJ : Json → Nat
| Json.str _ => 1
| Json.arr xs => 1 + sizeL xs
| Json.obj fs => 1 + sizeF fs
termination_by v => sizeOf v
decreasing_by all_goals (simp_wf <;> omega)

/-- Node count of a list of JSON values. -/
def sizeL : List Json → Nat
| [] => 0
| x :: xs => 1 + sizeJ x + sizeL xs
termination_by xs => sizeOf xs
decreasing_by all_goals (simp_wf <;> omega)

/-- Node count of a JSON field list. -/
def sizeF : List (String × Json) → Nat
| [] => 0
| (_, v) :: fs => 1 + sizeJ v + sizeF fs
termination_by fs => sizeOf fs
decreasing_by all_goals (simp_wf <;> omega)

end

/-- Split a character list into its newline-separated lines (always
non-empty; a trailing newline yields a final empty line). -/
def splitLines : List Char → List (List Char)
| [] => [[]]
| c :: r =>
  match splitLines r with
  | [] => [[]]
  | l :: ls => if c = '\n' then [] :: l :: ls else (c :: l) :: ls

/-- Join lines with single newlines (left inverse of `splitLines`). -/
def joinLines : List (List Char) → List Char
| [] => []
| [l] => l
| l :: ls => l ++ '\n' :: joinLines ls

/-- A markdown bullet line: one that starts with a dash and a space. -/
def isBulletLine : List Char → Bool
| a :: b :: _ => a == '-' && b == ' '
| _ => false

/-- Number of bullet lines in a character list. -/
def countBullets (s : List Char) : Nat :=
  ((splitLines s).filter isBulletLine).length

/-- Prepend a prefix to the first line of a line list. -/
def indentFirst (p : List Char) : List (List Char) → List (List Char)
| [] => [p]
| l :: ls => (p ++ l) :: ls

/-- Append a tail to the last line of a line list. -/
def addLast : List (List Char) → List Char → List (List Char)
| [], t => [t]
| [l], t => [l ++ t]
| l :: ls, t => l :: addLast ls t

mutual

/-- The lines of `renderVal n v`, computed directly (proved to join back
to `renderVal n v`). -/
def renderLinesV : Nat → Json → List (List Char)
| _, Json.str s => [renderStr s]
| _, Json.arr [] => [['[', ']']]
| n, Json.arr (x :: xs) => ['['] :: renderLinesA (n + 1) x xs ++ [ind n ++ [']']]
| _, Json.obj [] => [['{', '}']]
| n, Json.obj ((k, v) :: fs) => ['{'] :: renderLinesO (n + 1) k v fs ++ [ind n ++ ['}']]
termination_by n v => sizeOf v
decreasing_by all_goals (simp_wf <;> omega)

/-- The lines of `renderArr n x xs`. -/
def renderLinesA : Nat → Json → List Json → List (List Char)
| n, x, [] => indentFirst (ind n) (renderLinesV n x)
| n, x, y :: ys =>
    addLast (indentFirst (ind n) (renderLinesV n x)) [','] ++ renderLinesA n y ys
termination_by n x xs => sizeOf x + sizeOf xs
decreasing_by all_goals (simp_wf <;> omega)

/-- The lines of `renderObj n k v gs`. -/
def renderLinesO : Nat → String → Json → List (String × Json) → List (List Char)
| n, k, v, [] => indentFirst (ind n ++ renderStr k ++ [':', ' ']) (renderLinesV n v)
| n, k, v, (k2, v2) :: gs =>
    addLast (indentFirst (ind n ++ renderStr k ++ [':', ' ']) (renderLinesV n v)) [','] ++
      renderLinesO n k2 v2 gs
termination_by n k v gs => sizeOf v + sizeOf gs
decreasing_by all_goals (simp_wf <;> omega)

end

/-- The lines contributed by the recommendations block of the markdown
template: the joined bullets plus the final newline of the template. -/
def bulletLines : List String → List (List Char)
| [] => [[], []]
| r :: rs => (r :: rs).map (fun x => '-' :: ' ' :: x.data) ++ [[]]

/-- The lines of the markdown document produced by
`convert_to_markdown`. -/
def mdLines (a : StartupAnalysis) : List (List Char) :=
  ["# Startup Analysis Report".data,
   "Generated on: ".data ++ natChars a.created_at,
   [], "## Market Research".data] ++ renderLinesV 0 a.market_research ++
  [[], "## Customer Analysis".data] ++ renderLinesV 0 a.customer_analysis ++
  [[], "## Business Model".data] ++ renderLinesV 0 a.business_model ++
  [[], "## Technical Feasibility".data] ++ renderLinesV 0 a.technical_feasibility ++
  [[], "## Financial Projections".data] ++ renderLinesV 0 a.financial_projections ++
  [[], "## Go-to-Market Strategy".data] ++ renderLinesV 0 a.go_to_market ++
  [[], "## Risk Assessment".data] ++ renderLinesV 0 a.risk_assessment ++
  [[], "## Recommendations".data] ++ bulletLines a.recommendations

/-- The HTTP error raised by the API layer. -/
structure HTTPException where
  status_code : Nat
  detail : String

/-- The `DELETE /analyses/:id` route of `api.py`: unconditionally raises
HTTP 501, touching no state. -/
def delete_analysis (_analysis_id : Nat) (st : AgentState) :
    Except HTTPException Unit × AgentState :=
  (Except.error { status_code := 501, detail := "Delete functionality not implemented yet" }, st)

/-- Concrete failing service used by witnesses: every call raises. -/
def svcFail : Svc := fun _ => Except.error "boom"

/-- Concrete stub service used by witnesses: every call succeeds with the
fixed stub completion text. -/
def svcStub : Svc := fun _ => Except.ok "STUB:recommendations analysis text"

/-- Concrete analysis record used by witnesses. -/
def recW : StartupAnalysis :=
  { market_research := Json.obj [("analysis", Json.str "m")],
    customer_analysis := Json.obj [], business_model := Json.obj [],
    technical_feasibility := Json.obj [], financial_projections := Json.obj [],
    go_to_market := Json.obj [], risk_assessment := Json.obj [],
    recommendations := ["Test recommendation"], created_at := 0 }

/-- Concrete record whose single recommendation contains a newline
followed by a dash, used as the counterexample input for the markdown
bullet-count claim. -/
def recNl : StartupAnalysis :=
  { market_research := Json.obj [], customer_analysis := Json.obj [],
    business_model := Json.obj [], technical_feasibility := Json.obj [],
    financial_projections := Json.obj [], go_to_market := Json.obj [],
    risk_assessment := Json.obj [], recommendations := ["x\n- y"],
    created_at := 0 }

theorem analyze_unfold (svc : Svc) (now : Nat) (idea : String) :
    analyze_startup_idea svc now idea = some (mkAnalysis svc now idea) := rfl

theorem awg_is_obj (svc : Svc) (idea task : String) :
    ∃ fs, analyze_with_gemini svc idea task = Json.obj fs := by
  unfold analyze_with_gemini
  cases svc (geminiPrompt idea task) with
  | ok t => exact ⟨_, rfl⟩
  | error e => exact ⟨_, rfl⟩

theorem coerceRecs_obj (fs : List (String × Json)) :
    coerceRecs (Json.obj fs) = [pyStr (Json.obj fs)] := rfl

theorem runCalls_history (svc : Svc) (calls : List (Nat × String)) :
    ∀ st : AgentState, (runCalls svc calls st).analysis_history =
      st.analysis_history ++ calls.map (fun c => mkAnalysis svc c.1 c.2) := by
  induction calls with
  | nil => intro st; simp [runCalls]
  | cons c cs ih =>
    intro st
    have hstep : analyzeStep svc c.1 c.2 st =
        some (mkAnalysis svc c.1 c.2,
          { analysis_history := st.analysis_history ++ [mkAnalysis svc c.1 c.2] }) := by
      simp [analyzeStep, analyze_unfold]
    simp only [runCalls, List.foldl_cons] at ih ⊢
    rw [hstep]
    simpa [List.append_assoc] using
      ih { analysis_history := st.analysis_history ++ [mkAnalysis svc c.1 c.2] }

/-- C1: for every idea string and every section whose service call fails
or raises, `analyze` stores that section's value as the mapping with keys
`error` (the message) and `source` (the service name); all eight sections
are always attempted and assembled into a complete record, and no service
fault propagates out of `analyze` (it always returns `some` record, each
field being its own section's outcome). -/
theorem c1_per_section_failure (svc : Svc) (now : Nat) (idea task e : String) :
    analyze_startup_idea svc now idea = some (mkAnalysis svc now idea) ∧
    (svc (geminiPrompt idea task) = Except.error e →
      analyze_with_gemini svc idea task =
        Json.obj [("error", Json.str e), ("source", Json.str "Gemini")]) := by
  refine ⟨analyze_unfold svc now idea, fun h => ?_⟩
  simp [analyze_with_gemini, h]

theorem c1_per_section_failure_witness :
    svcFail (geminiPrompt "idea" "Analyze market size, trends, and competitive landscape") =
      Except.error "boom" ∧
    analyze_startup_idea svcFail 0 "idea" = some (mkAnalysis svcFail 0 "idea") ∧
    analyze_with_gemini svcFail "idea" "Analyze market size, trends, and competitive landscape" =
      Json.obj [("error", Json.str "boom"), ("source", Json.str "Gemini")] ∧
    (mkAnalysis svcFail 0 "idea").market_research =
      Json.obj [("error", Json.str "boom"), ("source", Json.str "Gemini")] := by
  refine ⟨rfl, ?_, ?_, rfl⟩
  · exact (c1_per_section_failure svcFail 0 "idea"
      "Analyze market size, trends, and competitive landscape" "boom").1
  · exact (c1_per_section_failure svcFail 0 "idea"
      "Analyze market size, trends, and competitive landscape" "boom").2 rfl

/-- C2: for all non-empty idea strings, `analyze` returns a record with
all seven named section fields (the full `StartupAnalysis` shape, each
field its own section's outcome) plus a non-empty recommendations list,
for every service behaviour, including one failing on every call. -/
theorem c2_full_shape (svc : Svc) (now : Nat) (idea : String) (h : idea ≠ "") :
    analyze_startup_idea svc now idea = some (mkAnalysis svc now idea) ∧
    (mkAnalysis svc now idea).recommendations ≠ [] := by
  refine ⟨analyze_unfold svc now idea, ?_⟩
  obtain ⟨fs, hfs⟩ :=
    awg_is_obj svc idea "Provide actionable recommendations and next steps"
  show coerceRecs _ ≠ []
  rw [hfs, coerceRecs_obj]
  simp

theorem c2_full_shape_witness :
    ("x" : String) ≠ "" ∧
    analyze_startup_idea svcFail 0 "x" = some (mkAnalysis svcFail 0 "x") ∧
    (mkAnalysis svcFail 0 "x").recommendations ≠ [] :=
  ⟨by decide, (c2_full_shape svcFail 0 "x" (by decide)).1,
    (c2_full_shape svcFail 0 "x" (by decide)).2⟩

/-- C3: history starts empty at construction, each successful `analyze`
call appends exactly its returned record (so length grows by one and
never decreases), the i-th history entry is the record of the i-th call
in call order, and a delete attempt is rejected with an explicit HTTP 501
not-implemented error, leaving state unchanged. -/
theorem c3_history_invariants (svc : Svc) (calls : List (Nat × String)) (now : Nat)
    (idea : String) (st st2 : AgentState) (a : StartupAnalysis) (i id2 : Nat) :
    initAgent.analysis_history = [] ∧
    (analyzeStep svc now idea st = some (a, st2) →
      st2.analysis_history = st.analysis_history ++ [a]) ∧
    (get_analysis_history (runCalls svc calls initAgent)).length = calls.length ∧
    (get_analysis_history (runCalls svc calls initAgent))[i]? =
      calls[i]?.map (fun c => mkAnalysis svc c.1 c.2) ∧
    delete_analysis id2 st =
      (Except.error { status_code := 501, detail := "Delete functionality not implemented yet" }, st) := by
  refine ⟨rfl, fun h => ?_, ?_, ?_, rfl⟩
  · simp only [analyzeStep, analyze_unfold, Option.map_some, Option.some.injEq,
      Prod.mk.injEq] at h
    obtain ⟨h1, h2⟩ := h
    rfl
  · simp [get_analysis_history, runCalls_history, initAgent]
  · simp [get_analysis_history, runCalls_history, initAgent, List.getElem?_map]

theorem c3_history_invariants_witness :
    analyzeStep svcStub 7 "idea" initAgent =
      some (mkAnalysis svcStub 7 "idea",
        { analysis_history := [mkAnalysis svcStub 7 "idea"] }) ∧
    initAgent.analysis_history = [] ∧
    ({ analysis_history := [mkAnalysis svcStub 7 "idea"] } : AgentState).analysis_history =
      initAgent.analysis_history ++ [mkAnalysis svcStub 7 "idea"] ∧
    (get_analysis_history (runCalls svcStub [(7, "idea"), (9, "idea2")] initAgent)).length = 2 ∧
    (get_analysis_history (runCalls svcStub [(7, "idea"), (9, "idea2")] initAgent))[1]? =
      some (mkAnalysis svcStub 9 "idea2") ∧
    delete_analysis 0 initAgent =
      (Except.error { status_code := 501, detail := "Delete functionality not implemented yet" },
        initAgent) := by
  have h := c3_history_invariants svcStub [(7, "idea"), (9, "idea2")] 7 "idea" initAgent
    { analysis_history := [mkAnalysis svcStub 7 "idea"] } (mkAnalysis svcStub 7 "idea") 1 0
  exact ⟨rfl, h.1, h.2.1 rfl, h.2.2.1, h.2.2.2.1, h.2.2.2.2⟩

/-- C4 (counterexample): with a stub service answering every call
(including the recommendations call) with the completion text
`STUB:recommendations analysis text`, `analyze` does NOT yield
`recommendations == ["STUB:recommendations analysis text"]`: the
non-list service response is a dict, and the code wraps the Python
`str` form of that whole dict, not the bare completion text. -/
theorem c4_raw_text_counterexample :
    (analyze_startup_idea svcStub 0 "A subscription box for artisanal coffee").map
        (fun a => a.recommendations) ≠
      some ["STUB:recommendations analysis text"] := by
  have hval : (analyze_startup_idea svcStub 0 "A subscription box for artisanal coffee").map
      (fun a => a.recommendations) =
      some ["\x7b\x27analysis\x27: \x27STUB:recommendations analysis text\x27, \x27source\x27: \x27Gemini\x27\x7d"] := by
    rw [analyze_unfold]
    show some (coerceRecs (analyze_with_gemini svcStub
      "A subscription box for artisanal coffee"
      "Provide actionable recommendations and next steps")) = _
    simp [analyze_with_gemini, svcStub, coerceRecs, asStrList, pyStr, pyReprV,
      pyReprObj, pyReprStr, pyQuote, pyEscChar, apos]
  rw [hval]
  decide

/-- C4 (amended): when the service succeeds with completion text `s` on
the recommendations call, the record's recommendations field is the
one-element list containing the Python string form of the raw service
response mapping `{"analysis": s, "source": "Gemini"}` — not the bare
completion text. -/
theorem c4_recommendations_coercion (svc : Svc) (now : Nat) (idea s : String)
    (h : svc (geminiPrompt idea "Provide actionable recommendations and next steps") =
      Except.ok s) :
    (analyze_startup_idea svc now idea).map (fun a => a.recommendations) =
      some [pyStr (Json.obj [("analysis", Json.str s), ("source", Json.str "Gemini")])] := by
  rw [analyze_unfold]
  show some (coerceRecs (analyze_with_gemini svc idea
    "Provide actionable recommendations and next steps")) = _
  rw [show analyze_with_gemini svc idea "Provide actionable recommendations and next steps" =
      Json.obj [("analysis", Json.str s), ("source", Json.str "Gemini")] from by
    simp [analyze_with_gemini, h]]
  rfl

theorem c4_recommendations_coercion_witness :
    svcStub (geminiPrompt "A subscription box for artisanal coffee"
        "Provide actionable recommendations and next steps") =
      Except.ok "STUB:recommendations analysis text" ∧
    (analyze_startup_idea svcStub 0 "A subscription box for artisanal coffee").map
        (fun a => a.recommendations) =
      some [pyStr (Json.obj [("analysis", Json.str "STUB:recommendations analysis text"),
        ("source", Json.str "Gemini")])] ∧
    pyStr (Json.obj [("analysis", Json.str "STUB:recommendations analysis text"),
        ("source", Json.str "Gemini")]) =
      "\x7b\x27analysis\x27: \x27STUB:recommendations analysis text\x27, \x27source\x27: \x27Gemini\x27\x7d" := by
  refine ⟨rfl, ?_, by simp [pyStr, pyReprV, pyReprObj, pyReprStr, pyQuote, pyEscChar, apos]⟩
  exact c4_recommendations_coercion svcStub 0 "A subscription box for artisanal coffee"
    "STUB:recommendations analysis text" rfl

/-- C5: for every record and every format string that is not a
case-variant of `json` or `markdown` (such as `xml`), `export_analysis`
fails with the `Unsupported format` error and produces no output, and
these are the only failing formats: every case-variant of `json` or
`markdown` succeeds with an output string.  `export_analysis` is a pure
function of the record and format alone (it takes no agent state). -/
theorem c5_unsupported_format (a : StartupAnalysis) (format : String)
    (h1 : pyLower format ≠ "json") (h2 : pyLower format ≠ "markdown") :
    export_analysis a format = Except.error ("Unsupported format: " ++ format) ∧
    ∀ g : String, pyLower g = "json" ∨ pyLower g = "markdown" →
      ∃ out, export_analysis a g = Except.ok out := by
  refine ⟨?_, ?_⟩
  · rw [export_analysis, if_neg h1, if_neg h2]
  · intro g hg
    rcases hg with hg | hg
    · exact ⟨json_dumps (analysisDict a), by rw [export_analysis, if_pos hg]⟩
    · refine ⟨convert_to_markdown a, ?_⟩
      rw [export_analysis, if_neg (by rw [hg]; decide), if_pos hg]

theorem c5_unsupported_format_witness :
    pyLower "xml" ≠ "json" ∧ pyLower "xml" ≠ "markdown" ∧
    export_analysis recW "xml" = Except.error "Unsupported format: xml" ∧
    ∃ out, export_analysis recW "json" = Except.ok out := by
  refine ⟨by decide, by decide, ?_, ?_⟩
  · exact (c5_unsupported_format recW "xml" (by decide) (by decide)).1
  · exact (c5_unsupported_format recW "xml" (by decide) (by decide)).2 "json" (Or.inl (by decide))

/-- C8: whenever the service fails during `generate_pitch_deck` or
`validate_business_model`, the operation returns the failure dict
carrying the underlying error message from its single service call (no
retry), and the agent state — hence the history — is unchanged by these
operations in all cases. -/
theorem c8_failure_no_history (svc : Svc) (now : Nat) (a : StartupAnalysis)
    (bm : Json) (st : AgentState) (e1 e2 : String) :
    (generate_pitch_deck svc now a st).2 = st ∧
    (validate_business_model svc now bm st).2 = st ∧
    (svc (pitchPrompt a) = Except.error e1 →
      generate_pitch_deck svc now a st = (Json.obj [("error", Json.str e1)], st)) ∧
    (svc (validatePrompt bm) = Except.error e2 →
      validate_business_model svc now bm st = (Json.obj [("error", Json.str e2)], st)) := by
  refine ⟨?_, ?_, fun h => ?_, fun h => ?_⟩
  · rw [generate_pitch_deck]
    cases svc (pitchPrompt a) <;> rfl
  · rw [validate_business_model]
    cases svc (validatePrompt bm) <;> rfl
  · rw [generate_pitch_deck, h]
  · rw [validate_business_model, h]

theorem c8_failure_no_history_witness :
    svcFail (validatePrompt (Json.obj [])) = Except.error "boom" ∧
    validate_business_model svcFail 0 (Json.obj []) initAgent =
      (Json.obj [("error", Json.str "boom")], initAgent) ∧
    (get_analysis_history
      (validate_business_model svcFail 0 (Json.obj []) initAgent).2).length = 0 ∧
    generate_pitch_deck svcFail 0 recW initAgent =
      (Json.obj [("error", Json.str "boom")], initAgent) := by
  have h := c8_failure_no_history svcFail 0 recW (Json.obj []) initAgent "boom" "boom"
  refine ⟨rfl, h.2.2.2 rfl, ?_, h.2.2.1 rfl⟩
  rw [h.2.1]
  rfl

/-- C9: across the records appended to one agent's history by successive
`analyze` calls, `created_at` (captured at record-construction time) is
monotonically non-decreasing, provided the construction-time clock
values of the successive calls are non-decreasing (time moves forward). -/
theorem c9_created_at_monotone (svc : Svc) (calls : List (Nat × String))
    (h : List.Chain' (fun a b => a ≤ b) (calls.map (fun c => c.1))) :
    List.Chain' (fun a b => a ≤ b)
      ((get_analysis_history (runCalls svc calls initAgent)).map
        (fun r => r.created_at)) := by
  rw [get_analysis_history, runCalls_history]
  simpa [initAgent, List.map_map, Function.comp, mkAnalysis] using h

theorem c9_created_at_monotone_witness :
    List.Chain' (fun a b => a ≤ b) ([(1, "a"), (2, "b")].map (fun c : Nat × String => c.1)) ∧
    List.Chain' (fun a b => a ≤ b)
      ((get_analysis_history (runCalls svcStub [(1, "a"), (2, "b")] initAgent)).map
        (fun r => r.created_at)) := by
  refine ⟨by simp, ?_⟩
  exact c9_created_at_monotone svcStub [(1, "a"), (2, "b")] (by simp)

/-- C10: `export_analysis` matches the format case-insensitively (the
source lower-cases the format before dispatch): any capitalization of
`json` yields the JSON serialization, any capitalization of `markdown`
yields the markdown document, and exactly the strings whose lower-case
form is neither are rejected with the unsupported-format error. -/
theorem c10_case_insensitive_format (a : StartupAnalysis) (format : String) :
    (pyLower format = "json" →
      export_analysis a format = Except.ok (json_dumps (analysisDict a))) ∧
    (pyLower format = "markdown" →
      export_analysis a format = Except.ok (convert_to_markdown a)) ∧
    (pyLower format ≠ "json" → pyLower format ≠ "markdown" →
      export_analysis a format = Except.error ("Unsupported format: " ++ format)) := by
  refine ⟨fun h => ?_, fun h => ?_, fun h1 h2 => ?_⟩
  · rw [export_analysis, if_pos h]
  · rw [export_analysis, if_neg (by rw [h]; decide), if_pos h]
  · rw [export_analysis, if_neg h1, if_neg h2]

theorem c10_case_insensitive_format_witness :
    pyLower "JSON" = "json" ∧
    export_analysis recW "JSON" = Except.ok (json_dumps (analysisDict recW)) ∧
    pyLower "MarkDown" = "markdown" ∧
    export_analysis recW "MarkDown" = Except.ok (convert_to_markdown recW) ∧
    pyLower "xml" ≠ "json" ∧ pyLower "xml" ≠ "markdown" ∧
    export_analysis recW "xml" = Except.error "Unsupported format: xml" := by
  refine ⟨by decide, ?_, by decide, ?_, by decide, by decide, ?_⟩
  · exact (c10_case_insensitive_format recW "JSON").1 (by decide)
  · exact (c10_case_insensitive_format recW "MarkDown").2.1 (by decide)
  · exact (c10_case_insensitive_format recW "xml").2.2 (by decide) (by decide)

theorem char_valid_toNat (c : Char) :
    c.toNat < 55296 ∨ (57344 ≤ c.toNat ∧ c.toNat < 1114112) := by
  have h := c.valid
  simp only [UInt32.isValidChar, Nat.isValidChar, Char.toNat] at h ⊢
  exact h

theorem hexVal_hexDig (d : Nat) (h : d < 16) : hexVal (hexDig d) = some d := by
  interval_cases d <;> decide

theorem hex4Val_hex4 (m : Nat) (h : m < 65536) :
    hex4Val (hexDig (m / 4096 % 16)) (hexDig (m / 256 % 16)) (hexDig (m / 16 % 16))
      (hexDig (m % 16)) = some m := by
  rw [hex4Val, hexVal_hexDig _ (by omega), hexVal_hexDig _ (by omega),
    hexVal_hexDig _ (by omega), hexVal_hexDig _ (by omega)]
  show some (m / 4096 % 16 * 4096 + m / 256 % 16 * 256 + m / 16 % 16 * 16 + m % 16) = some m
  congr 1
  omega

theorem parseU_hex4 (m : Nat) (rest : List Char) (h : m < 65536) :
    parseU (hex4 m ++ rest) = some (m, rest) := by
  rw [hex4]
  show parseU (hexDig (m / 4096 % 16) :: hexDig (m / 256 % 16) :: hexDig (m / 16 % 16) ::
    hexDig (m % 16) :: rest) = some (m, rest)
  rw [parseU, take4]
  show (match hex4Val (hexDig (m / 4096 % 16)) (hexDig (m / 256 % 16))
      (hexDig (m / 16 % 16)) (hexDig (m % 16)) with
    | none => none
    | some m2 => some (m2, rest)) = some (m, rest)
  rw [hex4Val_hex4 m h]

theorem parseEsc_escChar (c : Char) :
    (escChar c = [c] ∧ c ≠ '"' ∧ c ≠ '\\') ∨
    (∃ t, escChar c = '\\' :: t ∧ ∀ rest, parseEsc (t ++ rest) = some (c, rest)) := by
  by_cases h1 : c = '"'
  · exact Or.inr ⟨_, by rw [h1]; rfl, fun rest => by subst h1; simp [parseEsc, unescape]⟩
  by_cases h2 : c = '\\'
  · exact Or.inr ⟨_, by rw [h2]; rfl, fun rest => by subst h2; simp [parseEsc, unescape]⟩
  by_cases h3 : c = '\n'
  · exact Or.inr ⟨_, by rw [h3]; rfl, fun rest => by subst h3; simp [escChar, parseEsc, unescape]⟩
  by_cases h4 : c = '\r'
  · exact Or.inr ⟨_, by rw [h4]; rfl, fun rest => by subst h4; simp [escChar, parseEsc, unescape]⟩
  by_cases h5 : c = '\t'
  · exact Or.inr ⟨_, by rw [h5]; rfl, fun rest => by subst h5; simp [escChar, parseEsc, unescape]⟩
  by_cases h6 : c.toNat = 8
  · have hc : c = Char.ofNat 8 := by rw [← h6, Char.ofNat_toNat]
    subst hc
    refine Or.inr ⟨['b'], by decide, fun rest => ?_⟩
    simp [parseEsc, unescape]
  by_cases h7 : c.toNat = 12
  · have hc : c = Char.ofNat 12 := by rw [← h7, Char.ofNat_toNat]
    subst hc
    refine Or.inr ⟨['f'], by decide, fun rest => ?_⟩
    simp [parseEsc, unescape]
  by_cases h8 : c.toNat < 32 ∨ 126 < c.toNat
  · have hesc : escChar c =
        (if c.toNat < 65536 then '\\' :: 'u' :: hex4 c.toNat
         else '\\' :: 'u' :: hex4 (55296 + (c.toNat - 65536) / 1024) ++
              '\\' :: 'u' :: hex4 (56320 + (c.toNat - 65536) % 1024)) := by
      rw [escChar, if_neg h1, if_neg h2, if_neg h3, if_neg h4, if_neg h5, if_neg h6,
        if_neg h7, if_pos h8]
    have hvalid := char_valid_toNat c
    by_cases h9 : c.toNat < 65536
    · refine Or.inr ⟨'u' :: hex4 c.toNat, by rw [hesc, if_pos h9], fun rest => ?_⟩
      show parseEsc ('u' :: (hex4 c.toNat ++ rest)) = some (c, rest)
      have hno : ¬(55296 ≤ c.toNat ∧ c.toNat ≤ 56319) := by omega
      have hP : parseU (hex4 c.toNat ++ rest) = some (c.toNat, rest) :=
        parseU_hex4 _ _ h9
      simp only [parseEsc, if_pos rfl, hP, hno, if_false, if_true, ite_true, ite_false, Char.ofNat_toNat]
    · refine Or.inr ⟨'u' :: (hex4 (55296 + (c.toNat - 65536) / 1024) ++
        '\\' :: 'u' :: hex4 (56320 + (c.toNat - 65536) % 1024)),
        by rw [hesc, if_neg h9]; simp, fun rest => ?_⟩
      have hmod := Nat.mod_lt (x := c.toNat - 65536) (y := 1024) (by omega)
      have hdiv : (c.toNat - 65536) / 1024 < 1024 := by
        have : c.toNat < 1114112 := by omega
        omega
      have hlt : 55296 + (c.toNat - 65536) / 1024 < 65536 := by omega
      have hlt2 : 56320 + (c.toNat - 65536) % 1024 < 65536 := by omega
      have hyes : 55296 ≤ 55296 + (c.toNat - 65536) / 1024 ∧
          55296 + (c.toNat - 65536) / 1024 ≤ 56319 := by omega
      have hyes2 : 56320 ≤ 56320 + (c.toNat - 65536) % 1024 ∧
          56320 + (c.toNat - 65536) % 1024 ≤ 57343 := by omega
      have hP1 : parseU (hex4 (55296 + (c.toNat - 65536) / 1024) ++
          ('\\' :: 'u' :: (hex4 (56320 + (c.toNat - 65536) % 1024) ++ rest))) =
          some (55296 + (c.toNat - 65536) / 1024,
            '\\' :: 'u' :: (hex4 (56320 + (c.toNat - 65536) % 1024) ++ rest)) :=
        parseU_hex4 _ _ hlt
      have hP2 : parseU (hex4 (56320 + (c.toNat - 65536) % 1024) ++ rest) =
          some (56320 + (c.toNat - 65536) % 1024, rest) :=
        parseU_hex4 _ _ hlt2
      have harith : 65536 + (55296 + (c.toNat - 65536) / 1024 - 55296) * 1024 +
          (56320 + (c.toNat - 65536) % 1024 - 56320) = c.toNat := by
        have hdm := Nat.div_add_mod (c.toNat - 65536) 1024
        omega
      show parseEsc ('u' :: ((hex4 (55296 + (c.toNat - 65536) / 1024) ++
        '\\' :: 'u' :: hex4 (56320 + (c.toNat - 65536) % 1024)) ++ rest)) = some (c, rest)
      rw [show (hex4 (55296 + (c.toNat - 65536) / 1024) ++
          '\\' :: 'u' :: hex4 (56320 + (c.toNat - 65536) % 1024)) ++ rest =
          hex4 (55296 + (c.toNat - 65536) / 1024) ++
          ('\\' :: 'u' :: (hex4 (56320 + (c.toNat - 65536) % 1024) ++ rest)) from by simp]
      simp only [parseEsc, if_pos rfl, hP1, hyes, and_self, if_true, ite_true, hP2, hyes2,
        harith, Char.ofNat_toNat]
  · push_neg at h8
    refine Or.inl ⟨?_, h1, h2⟩
    rw [escChar, if_neg h1, if_neg h2, if_neg h3, if_neg h4, if_neg h5, if_neg h6,
      if_neg h7, if_neg (by push_neg; exact h8)]

theorem parseStr_escList (cs : List Char) : ∀ (fuel : Nat) (rest : List Char),
    cs.length < fuel →
    parseStrAux fuel ((cs.map escChar).flatten ++ '"' :: rest) = some (cs, rest) := by
  induction cs with
  | nil =>
    intro fuel rest h
    obtain ⟨f, rfl⟩ : ∃ f, fuel = f + 1 := ⟨fuel - 1, by omega⟩
    simp [parseStrAux]
  | cons c cs ih =>
    intro fuel rest h
    obtain ⟨f, rfl⟩ : ∃ f, fuel = f + 1 := ⟨fuel - 1, by omega⟩
    rw [List.map_cons, List.flatten_cons, List.append_assoc]
    have hf : cs.length < f := by simp at h; omega
    rcases parseEsc_escChar c with ⟨he, hq, hb⟩ | ⟨t, he, hpe⟩
    · rw [he]
      show parseStrAux (f + 1) (c :: ((cs.map escChar).flatten ++ '"' :: rest)) =
        some (c :: cs, rest)
      simp only [parseStrAux, if_neg hq, if_neg hb, ih f rest hf, Option.map_some,
        Option.map_some', ite_true, if_true]
    · rw [he]
      show parseStrAux (f + 1) ('\\' :: (t ++ ((cs.map escChar).flatten ++ '"' :: rest))) =
        some (c :: cs, rest)
      simp only [parseStrAux, if_neg (by decide : ¬('\\' = '"')), if_pos rfl,
        hpe ((cs.map escChar).flatten ++ '"' :: rest), ih f rest hf, Option.map_some,
        Option.map_some', ite_true, if_true]

theorem skipWs_cons_ws (c : Char) (s : List Char) (h : isWsChar c = true) :
    skipWs (c :: s) = skipWs s := by
  simp [skipWs, h]

theorem skipWs_cons_not_ws (c : Char) (s : List Char) (h : isWsChar c = false) :
    skipWs (c :: s) = c :: s := by
  simp [skipWs, h]

theorem skipWs_replicate (k : Nat) (s : List Char) :
    skipWs (List.replicate k ' ' ++ s) = skipWs s := by
  induction k with
  | zero => rfl
  | succ k ih => simpa [List.replicate_succ, skipWs] using ih

theorem skipWs_ind (n : Nat) (s : List Char) : skipWs (ind n ++ s) = skipWs s :=
  skipWs_replicate (2 * n) s

theorem skipWs_nl (s : List Char) : skipWs ('\n' :: s) = skipWs s :=
  skipWs_cons_ws '\n' s (by decide)

theorem skipWs_skipWs (s : List Char) : skipWs (skipWs s) = skipWs s := by
  induction s with
  | nil => rfl
  | cons c r ih =>
    by_cases h : isWsChar c = true
    · rw [skipWs_cons_ws c r h, ih]
    · rw [skipWs_cons_not_ws c r (by simpa using h), skipWs_cons_not_ws c r (by simpa using h)]

theorem parseVal_skipWs (fuel : Nat) (s : List Char) :
    parseVal fuel (skipWs s) = parseVal fuel s := by
  cases fuel with
  | zero => rfl
  | succ f => simp only [parseVal, skipWs_skipWs]

theorem parseArrItems_skipWs (fuel : Nat) (s : List Char) :
    parseArrItems fuel (skipWs s) = parseArrItems fuel s := by
  cases fuel with
  | zero => rfl
  | succ f => simp only [parseArrItems, parseVal_skipWs]

theorem parseObjItems_skipWs (fuel : Nat) (s : List Char) :
    parseObjItems fuel (skipWs s) = parseObjItems fuel s := by
  cases fuel with
  | zero => rfl
  | succ f => simp only [parseObjItems, skipWs_skipWs]

theorem renderVal_head (n : Nat) (v : Json) :
    ∃ c t, renderVal n v = c :: t ∧ (c = '"' ∨ c = '[' ∨ c = '{') := by
  cases v with
  | str s =>
    refine ⟨'"', (s.data.map escChar).flatten ++ ['"'], ?_, Or.inl rfl⟩
    simp [renderVal, renderStr]
  | arr xs =>
    cases xs with
    | nil =>
      refine ⟨'[', [']'], ?_, Or.inr (Or.inl rfl)⟩
      simp [renderVal]
    | cons x xs =>
      refine ⟨'[', '\n' :: (renderArr (n + 1) x xs ++ '\n' :: (ind n ++ [']'])), ?_,
        Or.inr (Or.inl rfl)⟩
      simp [renderVal]
  | obj fs =>
    match fs with
    | [] =>
      refine ⟨'{', ['}'], ?_, Or.inr (Or.inr rfl)⟩
      simp [renderVal]
    | (k, v) :: gs =>
      refine ⟨'{', '\n' :: (renderObj (n + 1) k v gs ++ '\n' :: (ind n ++ ['}'])), ?_,
        Or.inr (Or.inr rfl)⟩
      simp [renderVal]

theorem skipWs_renderVal (n : Nat) (v : Json) (rest : List Char) :
    skipWs (renderVal n v ++ rest) = renderVal n v ++ rest := by
  obtain ⟨c, t, hct, hc⟩ := renderVal_head n v
  rw [hct, List.cons_append, skipWs_cons_not_ws]
  rcases hc with h | h | h <;> subst h <;> decide

theorem parseVal_strip_ind (fuel n : Nat) (s : List Char) :
    parseVal fuel (ind n ++ s) = parseVal fuel s := by
  rw [← parseVal_skipWs fuel (ind n ++ s), skipWs_ind, parseVal_skipWs]

theorem parseVal_strip_nl (fuel : Nat) (s : List Char) :
    parseVal fuel ('\n' :: s) = parseVal fuel s := by
  rw [← parseVal_skipWs fuel ('\n' :: s), skipWs_nl, parseVal_skipWs]

theorem parseArrItems_strip_nl (fuel : Nat) (s : List Char) :
    parseArrItems fuel ('\n' :: s) = parseArrItems fuel s := by
  rw [← parseArrItems_skipWs fuel ('\n' :: s), skipWs_nl, parseArrItems_skipWs]

theorem parseObjItems_strip_nl (fuel : Nat) (s : List Char) :
    parseObjItems fuel ('\n' :: s) = parseObjItems fuel s := by
  rw [← parseObjItems_skipWs fuel ('\n' :: s), skipWs_nl, parseObjItems_skipWs]

theorem parseArrItems_strip_ind (fuel n : Nat) (s : List Char) :
    parseArrItems fuel (ind n ++ s) = parseArrItems fuel s := by
  rw [← parseArrItems_skipWs fuel (ind n ++ s), skipWs_ind, parseArrItems_skipWs]

theorem parseObjItems_strip_ind (fuel n : Nat) (s : List Char) :
    parseObjItems fuel (ind n ++ s) = parseObjItems fuel s := by
  rw [← parseObjItems_skipWs fuel (ind n ++ s), skipWs_ind, parseObjItems_skipWs]

theorem string_mk_data (s : String) : String.mk s.data = s := rfl

theorem escChar_length_pos (c : Char) : 1 ≤ (escChar c).length := by
  rw [escChar]
  split
  · simp
  split
  · simp
  split
  · simp
  split
  · simp
  split
  · simp
  split
  · simp
  split
  · simp
  split
  · split <;> simp [hex4]
  · simp

theorem escList_length (cs : List Char) :
    cs.length ≤ ((cs.map escChar).flatten).length := by
  induction cs with
  | nil => simp
  | cons c cs ih =>
    simp only [List.map_cons, List.flatten_cons, List.length_append, List.length_cons]
    have := escChar_length_pos c
    omega

theorem sizeJ_pos (v : Json) : 1 ≤ sizeJ v := by
  cases v with
  | str s => simp [sizeJ]
  | arr xs => simp [sizeJ]
  | obj fs => simp [sizeJ]

theorem sizeL_pos (x : Json) (xs : List Json) : 1 ≤ sizeL (x :: xs) := by
  simp [sizeL]
  omega

theorem sizeF_pos (k : String) (v : Json) (gs : List (String × Json)) :
    1 ≤ sizeF ((k, v) :: gs) := by
  simp [sizeF]
  omega

theorem renderArr_skipWs_head (n : Nat) (x : Json) (xs : List Json) (T : List Char) :
    ∃ c t, skipWs (renderArr n x xs ++ T) = c :: t ∧ (c = '"' ∨ c = '[' ∨ c = '{') := by
  obtain ⟨c, t, hct, hc⟩ := renderVal_head n x
  cases xs with
  | nil =>
    refine ⟨c, t ++ T, ?_, hc⟩
    rw [show renderArr n x [] ++ T = ind n ++ (renderVal n x ++ T) from by
      simp [renderArr, List.append_assoc]]
    rw [skipWs_ind, skipWs_renderVal, hct, List.cons_append]
  | cons y ys =>
    refine ⟨c, t ++ (',' :: '\n' :: renderArr n y ys ++ T), ?_, hc⟩
    rw [show renderArr n x (y :: ys) ++ T =
        ind n ++ (renderVal n x ++ (',' :: '\n' :: renderArr n y ys ++ T)) from by
      simp [renderArr, List.append_assoc]]
    rw [skipWs_ind, skipWs_renderVal, hct, List.cons_append]

theorem renderObj_skipWs_head (n : Nat) (k : String) (v : Json)
    (gs : List (String × Json)) (T : List Char) :
    ∃ t, skipWs (renderObj n k v gs ++ T) = '"' :: t := by
  cases gs with
  | nil =>
    refine ⟨(k.data.map escChar).flatten ++ '"' :: (':' :: ' ' :: (renderVal n v ++ T)), ?_⟩
    rw [show renderObj n k v [] ++ T =
        ind n ++ ('"' :: ((k.data.map escChar).flatten ++
          '"' :: (':' :: ' ' :: (renderVal n v ++ T)))) from by
      simp [renderObj, renderStr, List.append_assoc]]
    rw [skipWs_ind, skipWs_cons_not_ws _ _ (by decide)]
  | cons g gs =>
    obtain ⟨k2, v2⟩ := g
    refine ⟨(k.data.map escChar).flatten ++ '"' :: (':' :: ' ' :: (renderVal n v ++
      (',' :: '\n' :: renderObj n k2 v2 gs ++ T))), ?_⟩
    rw [show renderObj n k v ((k2, v2) :: gs) ++ T =
        ind n ++ ('"' :: ((k.data.map escChar).flatten ++
          '"' :: (':' :: ' ' :: (renderVal n v ++
            (',' :: '\n' :: renderObj n k2 v2 gs ++ T))))) from by
      simp [renderObj, renderStr, List.append_assoc]]
    rw [skipWs_ind, skipWs_cons_not_ws _ _ (by decide)]

theorem parseVal_strip_sp (fuel : Nat) (s : List Char) :
    parseVal fuel (' ' :: s) = parseVal fuel s := by
  rw [← parseVal_skipWs fuel (' ' :: s), skipWs_cons_ws _ _ (by decide), parseVal_skipWs]

theorem parseVal_arr_branch (f : Nat) (r : List Char)
    (h : ∃ c t, skipWs r = c :: t ∧ (c = '"' ∨ c = '[' ∨ c = '{')) :
    parseVal (f + 1) ('[' :: r) = parseArrItems f (skipWs r) := by
  obtain ⟨c, t, hct, hc⟩ := h
  simp only [parseVal]
  rw [skipWs_cons_not_ws '[' r (by decide)]
  show (match skipWs r with
    | ']' :: r2 => some (Json.arr [], r2)
    | r2 => parseArrItems f r2) = parseArrItems f (skipWs r)
  rw [hct]
  rcases hc with h | h | h <;> subst h <;> rfl

theorem parseVal_obj_branch (f : Nat) (r : List Char)
    (h : ∃ t, skipWs r = '"' :: t) :
    parseVal (f + 1) ('{' :: r) = parseObjItems f (skipWs r) := by
  obtain ⟨t, hct⟩ := h
  simp only [parseVal]
  rw [skipWs_cons_not_ws '{' r (by decide)]
  show (match skipWs r with
    | '}' :: r2 => some (Json.obj [], r2)
    | r2 => parseObjItems f r2) = parseObjItems f (skipWs r)
  rw [hct]
  rfl

theorem parse_render (fuel : Nat) :
    (∀ (v : Json) (n : Nat) (rest : List Char), sizeJ v ≤ fuel →
      parseVal fuel (renderVal n v ++ rest) = some (v, rest)) ∧
    (∀ (x : Json) (xs : List Json) (n m : Nat) (rest : List Char),
      sizeL (x :: xs) ≤ fuel →
      parseArrItems fuel (renderArr n x xs ++ '\n' :: (ind m ++ ']' :: rest)) =
        some (Json.arr (x :: xs), rest)) ∧
    (∀ (k : String) (v : Json) (gs : List (String × Json)) (n m : Nat) (rest : List Char),
      sizeF ((k, v) :: gs) ≤ fuel →
      parseObjItems fuel (renderObj n k v gs ++ '\n' :: (ind m ++ '}' :: rest)) =
        some (Json.obj ((k, v) :: gs), rest)) := by
  induction fuel with
  | zero =>
    refine ⟨fun v n rest h => absurd h ?_, fun x xs n m rest h => absurd h ?_,
      fun k v gs n m rest h => absurd h ?_⟩
    · have := sizeJ_pos v; omega
    · have := sizeL_pos x xs; omega
    · have := sizeF_pos k v gs; omega
  | succ f ih =>
    obtain ⟨ihV, ihA, ihO⟩ := ih
    refine ⟨?_, ?_, ?_⟩
    · intro v n rest hsz
      cases v with
      | str s =>
        rw [show renderVal n (Json.str s) ++ rest =
            '"' :: ((s.data.map escChar).flatten ++ '"' :: rest) from by
          simp [renderVal, renderStr]]
        simp only [parseVal]
        rw [skipWs_cons_not_ws _ _ (by decide)]
        show ((parseStrAux (((s.data.map escChar).flatten ++ '"' :: rest).length + 1)
          ((s.data.map escChar).flatten ++ '"' :: rest)).map
            (fun p => (Json.str (String.mk p.1), p.2))) = some (Json.str s, rest)
        rw [parseStr_escList s.data _ rest (by
          have := escList_length s.data
          simp only [List.length_append, List.length_cons]
          omega)]
        simp [string_mk_data]
      | arr xs =>
        cases xs with
        | nil =>
          rw [show renderVal n (Json.arr []) ++ rest = '[' :: ']' :: rest from by
            simp [renderVal]]
          simp only [parseVal]
          rw [skipWs_cons_not_ws _ _ (by decide)]
          show (match skipWs (']' :: rest) with
            | ']' :: r2 => some (Json.arr [], r2)
            | r2 => parseArrItems f r2) = some (Json.arr [], rest)
          rw [skipWs_cons_not_ws _ _ (by decide)]
          rfl
        | cons x xs =>
          rw [show renderVal n (Json.arr (x :: xs)) ++ rest =
              '[' :: ('\n' :: (renderArr (n + 1) x xs ++
                '\n' :: (ind n ++ ']' :: rest))) from by
            simp [renderVal]]
          rw [parseVal_arr_branch f _ (by
            rw [skipWs_nl]
            exact renderArr_skipWs_head (n + 1) x xs ('\n' :: (ind n ++ ']' :: rest)))]
          rw [skipWs_nl, parseArrItems_skipWs]
          refine ihA x xs (n + 1) n rest ?_
          simp only [sizeJ] at hsz
          omega
      | obj fs =>
        match fs with
        | [] =>
          rw [show renderVal n (Json.obj []) ++ rest = '{' :: '}' :: rest from by
            simp [renderVal]]
          simp only [parseVal]
          rw [skipWs_cons_not_ws _ _ (by decide)]
          show (match skipWs ('}' :: rest) with
            | '}' :: r2 => some (Json.obj [], r2)
            | r2 => parseObjItems f r2) = some (Json.obj [], rest)
          rw [skipWs_cons_not_ws _ _ (by decide)]
          rfl
        | (k, v) :: gs =>
          rw [show renderVal n (Json.obj ((k, v) :: gs)) ++ rest =
              '{' :: ('\n' :: (renderObj (n + 1) k v gs ++
                '\n' :: (ind n ++ '}' :: rest))) from by
            simp [renderVal]]
          rw [parseVal_obj_branch f _ (by
            rw [skipWs_nl]
            exact renderObj_skipWs_head (n + 1) k v gs ('\n' :: (ind n ++ '}' :: rest)))]
          rw [skipWs_nl, parseObjItems_skipWs]
          refine ihO k v gs (n + 1) n rest ?_
          simp only [sizeJ] at hsz
          omega
    · intro x xs n m rest hsz
      cases xs with
      | nil =>
        rw [show renderArr n x [] ++ '\n' :: (ind m ++ ']' :: rest) =
            ind n ++ (renderVal n x ++ '\n' :: (ind m ++ ']' :: rest)) from by
          simp [renderArr]]
        have hbx : sizeJ x ≤ f := by simp only [sizeL] at hsz; omega
        simp only [parseArrItems, parseVal_strip_ind,
          ihV x n ('\n' :: (ind m ++ ']' :: rest)) hbx, skipWs_nl, skipWs_ind,
          skipWs_cons_not_ws ']' rest (by decide)]
      | cons y ys =>
        rw [show renderArr n x (y :: ys) ++ '\n' :: (ind m ++ ']' :: rest) =
            ind n ++ (renderVal n x ++ (',' :: ('\n' ::
              (renderArr n y ys ++ '\n' :: (ind m ++ ']' :: rest))))) from by
          simp [renderArr]]
        have hbx : sizeJ x ≤ f := by simp only [sizeL] at hsz; omega
        have hbys : sizeL (y :: ys) ≤ f := by
          simp only [sizeL] at hsz ⊢
          omega
        simp only [parseArrItems, parseVal_strip_ind,
          ihV x n (',' :: ('\n' :: (renderArr n y ys ++ '\n' :: (ind m ++ ']' :: rest)))) hbx,
          skipWs_cons_not_ws ',' _ (by decide), parseArrItems_strip_nl,
          ihA y ys n m rest hbys]
    · intro k v gs n m rest hsz
      cases gs with
      | nil =>
        rw [show renderObj n k v [] ++ '\n' :: (ind m ++ '}' :: rest) =
            ind n ++ ('"' :: ((k.data.map escChar).flatten ++
              '"' :: (':' :: (' ' :: (renderVal n v ++
                '\n' :: (ind m ++ '}' :: rest)))))) from by
          simp [renderObj, renderStr]]
        have hbv : sizeJ v ≤ f := by simp only [sizeF] at hsz; omega
        simp only [parseObjItems, skipWs_ind, skipWs_cons_not_ws '"' _ (by decide)]
        rw [parseStr_escList k.data _ _ (by
          have := escList_length k.data
          simp only [List.length_append, List.length_cons]
          omega)]
        simp only [skipWs_cons_not_ws ':' _ (by decide), parseVal_strip_sp,
          ihV v n ('\n' :: (ind m ++ '}' :: rest)) hbv, skipWs_nl, skipWs_ind,
          skipWs_cons_not_ws '}' rest (by decide), string_mk_data]
      | cons g gs2 =>
        obtain ⟨k2, v2⟩ := g
        rw [show renderObj n k v ((k2, v2) :: gs2) ++ '\n' :: (ind m ++ '}' :: rest) =
            ind n ++ ('"' :: ((k.data.map escChar).flatten ++
              '"' :: (':' :: (' ' :: (renderVal n v ++ (',' :: ('\n' ::
                (renderObj n k2 v2 gs2 ++ '\n' :: (ind m ++ '}' :: rest))))))))) from by
          simp [renderObj, renderStr]]
        have hbv : sizeJ v ≤ f := by simp only [sizeF] at hsz; omega
        have hbgs : sizeF ((k2, v2) :: gs2) ≤ f := by
          simp only [sizeF] at hsz ⊢
          omega
        simp only [parseObjItems, skipWs_ind, skipWs_cons_not_ws '"' _ (by decide)]
        rw [parseStr_escList k.data _ _ (by
          have := escList_length k.data
          simp only [List.length_append, List.length_cons]
          omega)]
        simp only [skipWs_cons_not_ws ':' _ (by decide), parseVal_strip_sp,
          ihV v n (',' :: ('\n' ::
            (renderObj n k2 v2 gs2 ++ '\n' :: (ind m ++ '}' :: rest)))) hbv,
          skipWs_cons_not_ws ',' _ (by decide), parseObjItems_strip_nl,
          ihO k2 v2 gs2 n m rest hbgs, string_mk_data]

theorem size_le_render (bound : Nat) :
    (∀ (v : Json) (n : Nat), sizeOf v ≤ bound →
      sizeJ v + 1 ≤ (renderVal n v).length) ∧
    (∀ (x : Json) (xs : List Json) (n : Nat), sizeOf x + sizeOf xs ≤ bound →
      sizeL (x :: xs) ≤ (renderArr n x xs).length) ∧
    (∀ (k : String) (v : Json) (gs : List (String × Json)) (n : Nat),
      sizeOf v + sizeOf gs ≤ bound →
      sizeF ((k, v) :: gs) ≤ (renderObj n k v gs).length) := by
  induction bound with
  | zero =>
    refine ⟨fun v n h => absurd h ?_, fun x xs n h => absurd h ?_,
      fun k v gs n h => absurd h ?_⟩
    · have : 0 < sizeOf v := by cases v <;> simp <;> omega
      omega
    · have : 0 < sizeOf x := by cases x <;> simp <;> omega
      omega
    · have : 0 < sizeOf v := by cases v <;> simp <;> omega
      omega
  | succ b ih =>
    obtain ⟨ihV, ihA, ihO⟩ := ih
    refine ⟨?_, ?_, ?_⟩
    · intro v n hb
      cases v with
      | str s => simp [sizeJ, renderVal, renderStr]
      | arr xs =>
        cases xs with
        | nil => simp [sizeJ, sizeL, renderVal]
        | cons x xs =>
          have hx : sizeOf x + sizeOf xs ≤ b := by
            simp at hb
            omega
          have := ihA x xs (n + 1) hx
          simp only [sizeJ, renderVal, List.length_cons, List.length_append, ind,
            List.length_replicate] at *
          omega
      | obj fs =>
        match fs with
        | [] => simp [sizeJ, sizeF, renderVal]
        | (k, v) :: gs =>
          have hx : sizeOf v + sizeOf gs ≤ b := by
            simp at hb
            omega
          have := ihO k v gs (n + 1) hx
          simp only [sizeJ, renderVal, List.length_cons, List.length_append, ind,
            List.length_replicate] at *
          omega
    · intro x xs n hb
      cases xs with
      | nil =>
        have hx : sizeOf x ≤ b := by simp at hb; omega
        have := ihV x n hx
        simp only [sizeL, renderArr, List.length_append, ind, List.length_replicate] at *
        omega
      | cons y ys =>
        have hx : sizeOf x ≤ b := by simp at hb; omega
        have hys : sizeOf y + sizeOf ys ≤ b := by simp at hb; omega
        have h1 := ihV x n hx
        have h2 := ihA y ys n hys
        simp only [sizeL, renderArr, List.length_append, List.length_cons, ind,
          List.length_replicate] at *
        omega
    · intro k v gs n hb
      cases gs with
      | nil =>
        have hx : sizeOf v ≤ b := by simp at hb; omega
        have := ihV v n hx
        simp only [sizeF, renderObj, renderStr, List.length_append, List.length_cons,
          ind, List.length_replicate] at *
        omega
      | cons g gs2 =>
        obtain ⟨k2, v2⟩ := g
        have hx : sizeOf v ≤ b := by simp at hb; omega
        have hgs : sizeOf v2 + sizeOf gs2 ≤ b := by simp at hb; omega
        have h1 := ihV v n hx
        have h2 := ihO k2 v2 gs2 n hgs
        simp only [sizeF, renderObj, renderStr, List.length_append, List.length_cons,
          ind, List.length_replicate] at *
        omega

theorem json_loads_dumps (v : Json) : json_loads (json_dumps v) = some v := by
  have hsz : sizeJ v ≤ (renderVal 0 v).length + 1 := by
    have := (size_le_render (sizeOf v)).1 v 0 (Nat.le_refl _)
    omega
  have h := (parse_render ((renderVal 0 v).length + 1)).1 v 0 [] hsz
  rw [List.append_nil] at h
  show (match parseVal ((renderVal 0 v).length + 1) (renderVal 0 v) with
    | some (w, r) => if skipWs r = [] then some w else none
    | none => none) = some v
  rw [h]
  rfl

/-- C6: exporting a record as `json` produces the full structural
serialization of the record (with `created_at` in its stable textual
form), and a structural JSON parse of that output reproduces the whole
serialized record — in particular all seven sections and the
recommendations list are recovered unchanged by field lookup. -/
theorem c6_json_export_roundtrip (a : StartupAnalysis) :
    export_analysis a "json" = Except.ok (json_dumps (analysisDict a)) ∧
    json_loads (json_dumps (analysisDict a)) = some (analysisDict a) ∧
    jsonLookup (analysisDict a) "market_research" = some a.market_research ∧
    jsonLookup (analysisDict a) "customer_analysis" = some a.customer_analysis ∧
    jsonLookup (analysisDict a) "business_model" = some a.business_model ∧
    jsonLookup (analysisDict a) "technical_feasibility" = some a.technical_feasibility ∧
    jsonLookup (analysisDict a) "financial_projections" = some a.financial_projections ∧
    jsonLookup (analysisDict a) "go_to_market" = some a.go_to_market ∧
    jsonLookup (analysisDict a) "risk_assessment" = some a.risk_assessment ∧
    jsonLookup (analysisDict a) "recommendations" =
      some (Json.arr (a.recommendations.map Json.str)) ∧
    jsonLookup (analysisDict a) "created_at" = some (Json.str (dtStr a.created_at)) := by
  refine ⟨?_, json_loads_dumps (analysisDict a), rfl, rfl, rfl, rfl, rfl, rfl, rfl, rfl, rfl⟩
  rw [export_analysis, if_pos (by decide)]

theorem splitLines_cons (c : Char) (r : List Char) (l0 : List Char)
    (ls : List (List Char)) (h : splitLines r = l0 :: ls) :
    splitLines (c :: r) = if c = '\n' then [] :: l0 :: ls else (c :: l0) :: ls := by
  simp only [splitLines, h]

theorem splitLines_ne_nil (s : List Char) : splitLines s ≠ [] := by
  cases s with
  | nil => simp [splitLines]
  | cons c r =>
    simp only [splitLines]
    cases splitLines r with
    | nil => simp
    | cons l ls =>
      by_cases h : c = '\n' <;> simp [h]

theorem splitLines_no_newline (s : List Char) :
    ∀ l ∈ splitLines s, '\n' ∉ l := by
  induction s with
  | nil =>
    intro l hl
    simp [splitLines] at hl
    simp [hl]
  | cons c r ih =>
    intro l hl
    cases hsr : splitLines r with
    | nil => exact absurd hsr (splitLines_ne_nil r)
    | cons l0 ls =>
      rw [splitLines_cons c r l0 ls hsr] at hl
      by_cases hc : c = '\n'
      · rw [if_pos hc] at hl
        rcases List.mem_cons.mp hl with h | h
        · simp [h]
        · exact ih l (hsr ▸ h)
      · rw [if_neg hc] at hl
        rcases List.mem_cons.mp hl with h | h
        · subst h
          have hl0 : '\n' ∉ l0 := ih l0 (hsr ▸ List.mem_cons_self l0 ls)
          simp [hc, hl0]
          exact fun heq => hc heq.symm
        · exact ih l (hsr ▸ List.mem_cons.mpr (Or.inr h))

theorem splitLines_pure (l : List Char) (h : '\n' ∉ l) : splitLines l = [l] := by
  induction l with
  | nil => rfl
  | cons c r ih =>
    have hc : c ≠ '\n' := fun heq => h (heq ▸ List.mem_cons_self c r)
    have hr : '\n' ∉ r := fun hm => h (List.mem_cons.mpr (Or.inr hm))
    rw [splitLines_cons c r r [] (ih hr), if_neg hc]

theorem splitLines_append_newline (a b : List Char) (h : '\n' ∉ a) :
    splitLines (a ++ '\n' :: b) = a :: splitLines b := by
  induction a with
  | nil =>
    simp only [List.nil_append, splitLines]
    cases hsb : splitLines b with
    | nil => exact absurd hsb (splitLines_ne_nil b)
    | cons l ls => simp
  | cons c a2 ih =>
    have hc : c ≠ '\n' := fun heq => h (heq ▸ List.mem_cons_self c a2)
    have ha2 : '\n' ∉ a2 := fun hm => h (List.mem_cons.mpr (Or.inr hm))
    cases hsb : splitLines b with
    | nil => exact absurd hsb (splitLines_ne_nil b)
    | cons m ms =>
      rw [List.cons_append,
        splitLines_cons c (a2 ++ '\n' :: b) a2 (splitLines b) (ih ha2), if_neg hc]
      rw [hsb]

theorem splitLines_joinLines (L : List (List Char)) (hne : L ≠ [])
    (h : ∀ l ∈ L, '\n' ∉ l) : splitLines (joinLines L) = L := by
  induction L with
  | nil => exact absurd rfl hne
  | cons l ls ih =>
    cases ls with
    | nil =>
      show splitLines (joinLines [l]) = [l]
      rw [show joinLines [l] = l from rfl]
      exact splitLines_pure l (h l (List.mem_cons_self l []))
    | cons l2 ls2 =>
      rw [show joinLines (l :: l2 :: ls2) = l ++ '\n' :: joinLines (l2 :: ls2) from rfl]
      rw [splitLines_append_newline _ _ (h l (List.mem_cons_self l _))]
      rw [ih (by simp) (fun x hx => h x (List.mem_cons.mpr (Or.inr hx)))]

theorem joinLines_append (L1 L2 : List (List Char)) (h1 : L1 ≠ []) (h2 : L2 ≠ []) :
    joinLines (L1 ++ L2) = joinLines L1 ++ '\n' :: joinLines L2 := by
  induction L1 with
  | nil => exact absurd rfl h1
  | cons l ls ih =>
    cases ls with
    | nil =>
      cases L2 with
      | nil => exact absurd rfl h2
      | cons m ms => simp [joinLines]
    | cons l2 ls2 =>
      rw [show (l :: l2 :: ls2) ++ L2 = l :: ((l2 :: ls2) ++ L2) from rfl]
      rw [show joinLines (l :: ((l2 :: ls2) ++ L2)) =
        l ++ '\n' :: joinLines ((l2 :: ls2) ++ L2) from by
          cases hc : (l2 :: ls2) ++ L2 with
          | nil => simp at hc
          | cons x xs => rfl]
      rw [ih (by simp)]
      rw [show joinLines (l :: l2 :: ls2) = l ++ '\n' :: joinLines (l2 :: ls2) from rfl]
      simp

theorem joinLines_cons (l : List Char) (L : List (List Char)) (h : L ≠ []) :
    joinLines (l :: L) = l ++ '\n' :: joinLines L := by
  cases L with
  | nil => exact absurd rfl h
  | cons x xs => rfl

theorem indentFirst_ne (p : List Char) (L : List (List Char)) :
    indentFirst p L ≠ [] := by
  cases L <;> simp [indentFirst]

theorem addLast_ne (L : List (List Char)) (t : List Char) : addLast L t ≠ [] := by
  match L with
  | [] => simp [addLast]
  | [l] => simp [addLast]
  | l :: l2 :: ls => simp [addLast]

theorem renderLinesV_ne (n : Nat) (v : Json) : renderLinesV n v ≠ [] := by
  cases v with
  | str s => simp [renderLinesV]
  | arr xs => cases xs <;> simp [renderLinesV]
  | obj fs =>
    match fs with
    | [] => simp [renderLinesV]
    | (k, v) :: gs => simp [renderLinesV]

theorem renderLinesA_ne (n : Nat) (x : Json) (xs : List Json) :
    renderLinesA n x xs ≠ [] := by
  cases xs with
  | nil => simp only [renderLinesA]; exact indentFirst_ne _ _
  | cons y ys =>
    simp only [renderLinesA]
    intro h
    rcases List.append_eq_nil.mp h with ⟨h1, _⟩
    exact addLast_ne _ _ h1

theorem renderLinesO_ne (n : Nat) (k : String) (v : Json) (gs : List (String × Json)) :
    renderLinesO n k v gs ≠ [] := by
  cases gs with
  | nil => simp only [renderLinesO]; exact indentFirst_ne _ _
  | cons g gs2 =>
    obtain ⟨k2, v2⟩ := g
    simp only [renderLinesO]
    intro h
    rcases List.append_eq_nil.mp h with ⟨h1, _⟩
    exact addLast_ne _ _ h1

theorem joinLines_indentFirst (p : List Char) (L : List (List Char)) :
    joinLines (indentFirst p L) = p ++ joinLines L := by
  cases L with
  | nil => simp [indentFirst, joinLines]
  | cons l ls =>
    cases ls with
    | nil => rfl
    | cons l2 ls2 =>
      show joinLines ((p ++ l) :: l2 :: ls2) = p ++ joinLines (l :: l2 :: ls2)
      rw [joinLines_cons (p ++ l) (l2 :: ls2) (by simp),
        joinLines_cons l (l2 :: ls2) (by simp)]
      simp

theorem joinLines_addLast (L : List (List Char)) (t : List Char) :
    joinLines (addLast L t) = joinLines L ++ t := by
  induction L with
  | nil => simp [addLast, joinLines]
  | cons l ls ih =>
    cases ls with
    | nil => rfl
    | cons l2 ls2 =>
      show joinLines (l :: addLast (l2 :: ls2) t) = joinLines (l :: l2 :: ls2) ++ t
      rw [joinLines_cons _ _ (by
          intro h
          exact addLast_ne (l2 :: ls2) t h),
        joinLines_cons _ _ (by simp), ih]
      simp

theorem mem_indentFirst (l p : List Char) (L : List (List Char))
    (h : l ∈ indentFirst p L) : l = p ∨ (∃ l0 ∈ L, l = p ++ l0) ∨ l ∈ L := by
  cases L with
  | nil =>
    simp [indentFirst] at h
    exact Or.inl h
  | cons l0 ls =>
    simp only [indentFirst] at h
    rcases List.mem_cons.mp h with h | h
    · exact Or.inr (Or.inl ⟨l0, List.mem_cons_self l0 ls, h⟩)
    · exact Or.inr (Or.inr (List.mem_cons.mpr (Or.inr h)))

theorem mem_addLast (l : List Char) (L : List (List Char)) (t : List Char)
    (h : l ∈ addLast L t) : l ∈ L ∨ (∃ l0 ∈ L, l = l0 ++ t) ∨ l = t := by
  induction L with
  | nil =>
    rw [show addLast [] t = [t] from rfl] at h
    rcases List.mem_cons.mp h with h | h
    · exact Or.inr (Or.inr h)
    · simp at h
  | cons x xs ih =>
    cases xs with
    | nil =>
      rw [show addLast [x] t = [x ++ t] from rfl] at h
      rcases List.mem_cons.mp h with h | h
      · exact Or.inr (Or.inl ⟨x, by simp, h⟩)
      · simp at h
    | cons x2 xs2 =>
      rw [show addLast (x :: x2 :: xs2) t = x :: addLast (x2 :: xs2) t from rfl] at h
      rcases List.mem_cons.mp h with h | h
      · exact Or.inl (List.mem_cons.mpr (Or.inl h))
      · rcases ih h with h2 | ⟨l0, hl0, he⟩ | h2
        · exact Or.inl (List.mem_cons.mpr (Or.inr h2))
        · exact Or.inr (Or.inl ⟨l0, List.mem_cons.mpr (Or.inr hl0), he⟩)
        · exact Or.inr (Or.inr h2)

theorem isBulletLine_singleton (x : Char) : isBulletLine [x] = false := rfl

theorem isBulletLine_space (t : List Char) : isBulletLine (' ' :: t) = false := by
  cases t with
  | nil => rfl
  | cons b t2 => simp [isBulletLine]

theorem isBulletLine_quote (t : List Char) : isBulletLine ('"' :: t) = false := by
  cases t with
  | nil => rfl
  | cons b t2 => simp [isBulletLine]

theorem isBulletLine_append_comma (l : List Char) :
    isBulletLine (l ++ [',']) = isBulletLine l := by
  match l with
  | [] => rfl
  | [a] =>
    show isBulletLine [a, ','] = isBulletLine [a]
    rw [isBulletLine_singleton]
    simp [isBulletLine]
  | a :: b :: t => rfl

theorem isBulletLine_ind_pos (n : Nat) (t : List Char) (h : 1 ≤ n) :
    isBulletLine (ind n ++ t) = false := by
  match n with
  | m + 1 =>
    rw [show ind (m + 1) = ' ' :: List.replicate (2 * m + 1) ' ' from by
      rw [ind, show 2 * (m + 1) = (2 * m + 1) + 1 from by omega, List.replicate_succ]]
    rw [List.cons_append, isBulletLine_space]

theorem no_newline_ind (n : Nat) : '\n' ∉ ind n := by
  intro h
  rw [ind] at h
  have := List.eq_of_mem_replicate h
  exact absurd this (by decide)

theorem hexDig_ne_newline (d : Nat) (h : d < 16) : hexDig d ≠ '\n' := by
  interval_cases d <;> decide

theorem no_newline_hex4 (m : Nat) : '\n' ∉ hex4 m := by
  intro h
  rw [hex4] at h
  rcases List.mem_cons.mp h with h | h
  · exact hexDig_ne_newline _ (Nat.mod_lt _ (by omega)) h.symm
  rcases List.mem_cons.mp h with h | h
  · exact hexDig_ne_newline _ (Nat.mod_lt _ (by omega)) h.symm
  rcases List.mem_cons.mp h with h | h
  · exact hexDig_ne_newline _ (Nat.mod_lt _ (by omega)) h.symm
  rcases List.mem_cons.mp h with h | h
  · exact hexDig_ne_newline _ (Nat.mod_lt _ (by omega)) h.symm
  · simp at h

theorem no_newline_u_hex4 (m : Nat) : '\n' ∉ ('\\' :: 'u' :: hex4 m) := by
  intro h
  rcases List.mem_cons.mp h with h | h
  · exact absurd h (by decide)
  rcases List.mem_cons.mp h with h | h
  · exact absurd h (by decide)
  · exact no_newline_hex4 m h

theorem escChar_no_newline (c : Char) : '\n' ∉ escChar c := by
  rw [escChar]
  split
  · decide
  split
  · decide
  split
  · decide
  split
  · decide
  split
  · decide
  split
  · decide
  split
  · decide
  split
  · split
    · exact no_newline_u_hex4 c.toNat
    · intro hm
      rw [show ('\\' :: 'u' :: hex4 (55296 + (c.toNat - 65536) / 1024) ++
          '\\' :: 'u' :: hex4 (56320 + (c.toNat - 65536) % 1024)) =
          '\\' :: 'u' :: (hex4 (55296 + (c.toNat - 65536) / 1024) ++
          '\\' :: 'u' :: hex4 (56320 + (c.toNat - 65536) % 1024)) from rfl] at hm
      rcases List.mem_cons.mp hm with h | h
      · exact absurd h (by decide)
      rcases List.mem_cons.mp h with h | h
      · exact absurd h (by decide)
      rcases List.mem_append.mp h with h | h
      · exact no_newline_hex4 _ h
      · exact no_newline_u_hex4 _ h
  · rename_i h1 h2 h3 h4 h5 h6 h7 h8
    intro hm
    simp at hm
    rw [hm] at h3
    exact h3 rfl

theorem renderStr_no_newline (s : String) : '\n' ∉ renderStr s := by
  rw [renderStr]
  intro h
  rcases List.mem_cons.mp h with h | h
  · exact absurd h.symm (by decide)
  rcases List.mem_append.mp h with h | h
  · obtain ⟨l, hl, hmem⟩ := List.mem_flatten.mp h
    obtain ⟨c, _, rfl⟩ := List.mem_map.mp hl
    exact escChar_no_newline c hmem
  · simp at h

theorem render_lines_join (bound : Nat) :
    (∀ (v : Json) (n : Nat), sizeOf v ≤ bound →
      joinLines (renderLinesV n v) = renderVal n v) ∧
    (∀ (x : Json) (xs : List Json) (n : Nat), sizeOf x + sizeOf xs ≤ bound →
      joinLines (renderLinesA n x xs) = renderArr n x xs) ∧
    (∀ (k : String) (v : Json) (gs : List (String × Json)) (n : Nat),
      sizeOf v + sizeOf gs ≤ bound →
      joinLines (renderLinesO n k v gs) = renderObj n k v gs) := by
  induction bound with
  | zero =>
    refine ⟨fun v n h => absurd h ?_, fun x xs n h => absurd h ?_,
      fun k v gs n h => absurd h ?_⟩
    · have : 0 < sizeOf v := by cases v <;> simp <;> omega
      omega
    · have : 0 < sizeOf x := by cases x <;> simp <;> omega
      omega
    · have : 0 < sizeOf v := by cases v <;> simp <;> omega
      omega
  | succ b ih =>
    obtain ⟨ihV, ihA, ihO⟩ := ih
    refine ⟨?_, ?_, ?_⟩
    · intro v n hb
      cases v with
      | str s => simp [renderLinesV, renderVal, joinLines]
      | arr xs =>
        cases xs with
        | nil => simp [renderLinesV, renderVal, joinLines]
        | cons x xs =>
          have hx : sizeOf x + sizeOf xs ≤ b := by simp at hb; omega
          rw [show renderLinesV n (Json.arr (x :: xs)) =
            ['['] :: (renderLinesA (n + 1) x xs ++ [ind n ++ [']']]) from by
              simp [renderLinesV]]
          rw [joinLines_cons _ _ (by simp),
            joinLines_append _ _ (renderLinesA_ne _ _ _) (by simp),
            ihA x xs (n + 1) hx]
          simp [renderVal, joinLines]
      | obj fs =>
        match fs with
        | [] => simp [renderLinesV, renderVal, joinLines]
        | (k, v) :: gs =>
          have hx : sizeOf v + sizeOf gs ≤ b := by simp at hb; omega
          rw [show renderLinesV n (Json.obj ((k, v) :: gs)) =
            ['{'] :: (renderLinesO (n + 1) k v gs ++ [ind n ++ ['}']]) from by
              simp [renderLinesV]]
          rw [joinLines_cons _ _ (by simp),
            joinLines_append _ _ (renderLinesO_ne _ _ _ _) (by simp),
            ihO k v gs (n + 1) hx]
          simp [renderVal, joinLines]
    · intro x xs n hb
      cases xs with
      | nil =>
        have hx : sizeOf x ≤ b := by simp at hb; omega
        rw [show renderLinesA n x [] = indentFirst (ind n) (renderLinesV n x) from by
            simp [renderLinesA],
          joinLines_indentFirst, ihV x n hx]
        simp [renderArr]
      | cons y ys =>
        have hx : sizeOf x ≤ b := by simp at hb; omega
        have hys : sizeOf y + sizeOf ys ≤ b := by simp at hb; omega
        rw [show renderLinesA n x (y :: ys) =
          addLast (indentFirst (ind n) (renderLinesV n x)) [','] ++ renderLinesA n y ys
          from by simp [renderLinesA]]
        rw [joinLines_append _ _ (by
            intro h
            exact addLast_ne _ _ h) (renderLinesA_ne _ _ _),
          joinLines_addLast, joinLines_indentFirst, ihV x n hx, ihA y ys n hys]
        simp [renderArr]
    · intro k v gs n hb
      cases gs with
      | nil =>
        have hx : sizeOf v ≤ b := by simp at hb; omega
        rw [show renderLinesO n k v [] =
          indentFirst (ind n ++ renderStr k ++ [':', ' ']) (renderLinesV n v) from by
            simp [renderLinesO],
          joinLines_indentFirst, ihV v n hx]
        simp [renderObj]
      | cons g gs2 =>
        obtain ⟨k2, v2⟩ := g
        have hx : sizeOf v ≤ b := by simp at hb; omega
        have hgs : sizeOf v2 + sizeOf gs2 ≤ b := by simp at hb; omega
        rw [show renderLinesO n k v ((k2, v2) :: gs2) =
          addLast (indentFirst (ind n ++ renderStr k ++ [':', ' ']) (renderLinesV n v)) [','] ++
            renderLinesO n k2 v2 gs2 from by simp [renderLinesO]]
        rw [joinLines_append _ _ (by
            intro h
            exact addLast_ne _ _ h) (renderLinesO_ne _ _ _ _),
          joinLines_addLast, joinLines_indentFirst, ihV v n hx, ihO k2 v2 gs2 n hgs]
        simp [renderObj]

theorem no_newline_close (n : Nat) (x : Char) (hx : x ≠ '\n') :
    '\n' ∉ ind n ++ [x] := by
  intro h
  rcases List.mem_append.mp h with h | h
  · exact no_newline_ind n h
  · simp at h
    exact hx h.symm

theorem isBulletLine_close (n : Nat) (x : Char) (hx : x ≠ '-') :
    isBulletLine (ind n ++ [x]) = false := by
  cases n with
  | zero =>
    show isBulletLine [x] = false
    exact isBulletLine_singleton x
  | succ m => exact isBulletLine_ind_pos (m + 1) [x] (by omega)

theorem lineOk_ind_pre (n : Nat) (l pre : List Char) (hn : 1 ≤ n)
    (hpre : '\n' ∉ pre) (hl : '\n' ∉ l) :
    '\n' ∉ (ind n ++ pre) ++ l ∧ isBulletLine ((ind n ++ pre) ++ l) = false := by
  constructor
  · intro h
    rcases List.mem_append.mp h with h | h
    · rcases List.mem_append.mp h with h | h
      · exact no_newline_ind n h
      · exact hpre h
    · exact hl h
  · rw [List.append_assoc]
    exact isBulletLine_ind_pos n (pre ++ l) hn

theorem renderLines_props (bound : Nat) :
    (∀ (v : Json) (n : Nat), sizeOf v ≤ bound →
      ∀ l ∈ renderLinesV n v, '\n' ∉ l ∧ isBulletLine l = false) ∧
    (∀ (x : Json) (xs : List Json) (n : Nat), 1 ≤ n → sizeOf x + sizeOf xs ≤ bound →
      ∀ l ∈ renderLinesA n x xs, '\n' ∉ l ∧ isBulletLine l = false) ∧
    (∀ (k : String) (v : Json) (gs : List (String × Json)) (n : Nat), 1 ≤ n →
      sizeOf v + sizeOf gs ≤ bound →
      ∀ l ∈ renderLinesO n k v gs, '\n' ∉ l ∧ isBulletLine l = false) := by
  induction bound with
  | zero =>
    refine ⟨fun v n h => absurd h ?_, fun x xs n _ h => absurd h ?_,
      fun k v gs n _ h => absurd h ?_⟩
    · have : 0 < sizeOf v := by cases v <;> simp <;> omega
      omega
    · have : 0 < sizeOf x := by cases x <;> simp <;> omega
      omega
    · have : 0 < sizeOf v := by cases v <;> simp <;> omega
      omega
  | succ b ih =>
    obtain ⟨ihV, ihA, ihO⟩ := ih
    have hIndentA : ∀ (L : List (List Char)) (n : Nat), 1 ≤ n →
        (∀ l ∈ L, '\n' ∉ l ∧ isBulletLine l = false) →
        ∀ l ∈ indentFirst (ind n) L, '\n' ∉ l ∧ isBulletLine l = false := by
      intro L n hn hL l hl
      rcases mem_indentFirst l (ind n) L hl with h | ⟨l0, hl0, h⟩ | h
      · subst h
        refine ⟨no_newline_ind n, ?_⟩
        rw [← List.append_nil (ind n)]
        exact isBulletLine_ind_pos n [] hn
      · subst h
        refine ⟨?_, isBulletLine_ind_pos n l0 hn⟩
        intro hm
        rcases List.mem_append.mp hm with h | h
        · exact no_newline_ind n h
        · exact (hL l0 hl0).1 h
      · exact hL l h
    have hAddLast : ∀ (L : List (List Char)),
        (∀ l ∈ L, '\n' ∉ l ∧ isBulletLine l = false) →
        ∀ l ∈ addLast L [','], '\n' ∉ l ∧ isBulletLine l = false := by
      intro L hL l hl
      rcases mem_addLast l L [','] hl with h | ⟨l0, hl0, h⟩ | h
      · exact hL l h
      · subst h
        refine ⟨?_, ?_⟩
        · intro hm
          rcases List.mem_append.mp hm with h | h
          · exact (hL l0 hl0).1 h
          · simp at h
        · rw [isBulletLine_append_comma]
          exact (hL l0 hl0).2
      · subst h
        exact ⟨by decide, rfl⟩
    refine ⟨?_, ?_, ?_⟩
    · intro v n hb l hl
      cases v with
      | str s =>
        rw [show renderLinesV n (Json.str s) = [renderStr s] from by simp [renderLinesV]]
          at hl
        rcases List.mem_cons.mp hl with h | h
        · subst h
          refine ⟨renderStr_no_newline s, ?_⟩
          rw [renderStr]
          exact isBulletLine_quote _
        · simp at h
      | arr xs =>
        cases xs with
        | nil =>
          rw [show renderLinesV n (Json.arr []) = [['[', ']']] from by simp [renderLinesV]]
            at hl
          rcases List.mem_cons.mp hl with h | h
          · subst h
            exact ⟨by decide, rfl⟩
          · simp at h
        | cons x xs =>
          have hx : sizeOf x + sizeOf xs ≤ b := by simp at hb; omega
          rw [show renderLinesV n (Json.arr (x :: xs)) =
            ['['] :: (renderLinesA (n + 1) x xs ++ [ind n ++ [']']]) from by
              simp [renderLinesV]] at hl
          rcases List.mem_cons.mp hl with h | h
          · subst h
            exact ⟨by decide, rfl⟩
          rcases List.mem_append.mp h with h | h
          · exact ihA x xs (n + 1) (by omega) hx l h
          · rcases List.mem_cons.mp h with h | h
            · subst h
              exact ⟨no_newline_close n ']' (by decide),
                isBulletLine_close n ']' (by decide)⟩
            · simp at h
      | obj fs =>
        match fs with
        | [] =>
          rw [show renderLinesV n (Json.obj []) = [['{', '}']] from by simp [renderLinesV]]
            at hl
          rcases List.mem_cons.mp hl with h | h
          · subst h
            exact ⟨by decide, rfl⟩
          · simp at h
        | (k, v) :: gs =>
          have hx : sizeOf v + sizeOf gs ≤ b := by simp at hb; omega
          rw [show renderLinesV n (Json.obj ((k, v) :: gs)) =
            ['{'] :: (renderLinesO (n + 1) k v gs ++ [ind n ++ ['}']]) from by
              simp [renderLinesV]] at hl
          rcases List.mem_cons.mp hl with h | h
          · subst h
            exact ⟨by decide, rfl⟩
          rcases List.mem_append.mp h with h | h
          · exact ihO k v gs (n + 1) (by omega) hx l h
          · rcases List.mem_cons.mp h with h | h
            · subst h
              exact ⟨no_newline_close n '}' (by decide),
                isBulletLine_close n '}' (by decide)⟩
            · simp at h
    · intro x xs n hn hb l hl
      cases xs with
      | nil =>
        have hx : sizeOf x ≤ b := by simp at hb; omega
        rw [show renderLinesA n x [] = indentFirst (ind n) (renderLinesV n x) from by
          simp [renderLinesA]] at hl
        exact hIndentA (renderLinesV n x) n hn (ihV x n hx) l hl
      | cons y ys =>
        have hx : sizeOf x ≤ b := by simp at hb; omega
        have hys : sizeOf y + sizeOf ys ≤ b := by simp at hb; omega
        rw [show renderLinesA n x (y :: ys) =
          addLast (indentFirst (ind n) (renderLinesV n x)) [','] ++ renderLinesA n y ys
          from by simp [renderLinesA]] at hl
        rcases List.mem_append.mp hl with h | h
        · exact hAddLast _ (hIndentA (renderLinesV n x) n hn (ihV x n hx)) l h
        · exact ihA y ys n hn hys l h
    · intro k v gs n hn hb l hl
      have hpre : '\n' ∉ renderStr k ++ [':', ' '] := by
        intro hm
        rcases List.mem_append.mp hm with h | h
        · exact renderStr_no_newline k h
        · simp at h
      have hIndObj : ∀ l2 ∈ indentFirst (ind n ++ (renderStr k ++ [':', ' ']))
          (renderLinesV n v), sizeOf v ≤ b → '\n' ∉ l2 ∧ isBulletLine l2 = false := by
        intro l2 hl2 hvb
        rcases mem_indentFirst l2 _ _ hl2 with h | ⟨l0, hl0, h⟩ | h
        · subst h
          rw [← List.append_nil (ind n ++ (renderStr k ++ [':', ' ']))]
          exact lineOk_ind_pre n [] _ hn hpre (by simp)
        · subst h
          exact lineOk_ind_pre n l0 _ hn hpre ((ihV v n hvb) l0 hl0).1
        · exact (ihV v n hvb) l2 h
      cases gs with
      | nil =>
        have hx : sizeOf v ≤ b := by simp at hb; omega
        rw [show renderLinesO n k v [] =
          indentFirst (ind n ++ renderStr k ++ [':', ' ']) (renderLinesV n v) from by
            simp [renderLinesO]] at hl
        rw [List.append_assoc] at hl
        exact hIndObj l hl hx
      | cons g gs2 =>
        obtain ⟨k2, v2⟩ := g
        have hx : sizeOf v ≤ b := by simp at hb; omega
        have hgs : sizeOf v2 + sizeOf gs2 ≤ b := by simp at hb; omega
        rw [show renderLinesO n k v ((k2, v2) :: gs2) =
          addLast (indentFirst (ind n ++ renderStr k ++ [':', ' ']) (renderLinesV n v)) [','] ++
            renderLinesO n k2 v2 gs2 from by simp [renderLinesO]] at hl
        rw [List.append_assoc] at hl
        rcases List.mem_append.mp hl with h | h
        · exact hAddLast _ (fun l2 hl2 => hIndObj l2 hl2 hx) l h
        · exact ihO k2 v2 gs2 n hn hgs l h

theorem joinNl_data (ss : List String) :
    (joinNl ss).data = joinLines (ss.map (fun s => s.data)) := by
  induction ss with
  | nil => rfl
  | cons s ss2 ih =>
    cases ss2 with
    | nil => rfl
    | cons s2 ss3 =>
      rw [show joinNl (s :: s2 :: ss3) = s ++ "\n" ++ joinNl (s2 :: ss3) from rfl]
      rw [String.data_append, String.data_append, ih]
      rw [show ("\n" : String).data = ['\n'] from by decide]
      rw [show joinLines (List.map (fun s => s.data) (s :: s2 :: ss3)) =
        s.data ++ '\n' :: joinLines (List.map (fun s => s.data) (s2 :: ss3)) from by
          rw [List.map_cons, List.map_cons]
          rfl]
      simp

theorem joinLines_bulletLines (recs : List String) :
    joinLines (bulletLines recs) =
      (joinNl (recs.map (fun r => "- " ++ r))).data ++ ['\n'] := by
  cases recs with
  | nil => rfl
  | cons r rs =>
    rw [show bulletLines (r :: rs) = (r :: rs).map (fun x => '-' :: ' ' :: x.data) ++ [[]]
      from by simp [bulletLines]]
    rw [joinLines_append _ _ (by simp) (by simp), joinNl_data]
    have hdash : ∀ x : String, ("- " ++ x).data = '-' :: ' ' :: x.data := by
      intro x
      rw [String.data_append, show ("- " : String).data = ['-', ' '] from by decide]
      rfl
    simp [List.map_map, Function.comp_def, hdash, joinLines]

theorem joinLines_render_seg (n : Nat) (v : Json) (L : List (List Char)) (h : L ≠ []) :
    joinLines (renderLinesV n v ++ L) = renderVal n v ++ '\n' :: joinLines L := by
  rw [joinLines_append _ _ (renderLinesV_ne _ _) h,
    (render_lines_join (sizeOf v)).1 v n (Nat.le_refl _)]

theorem data_mk (l : List Char) : (String.mk l).data = l := rfl

theorem bulletLines_ne (recs : List String) : bulletLines recs ≠ [] := by
  cases recs <;> simp [bulletLines]

set_option maxRecDepth 10000 in
theorem md_data_eq (a : StartupAnalysis) :
    (convert_to_markdown a).data = joinLines (mdLines a) := by
  have e1 : ("# Startup Analysis Report\nGenerated on: " : String).data =
    "# Startup Analysis Report".data ++ '\n' :: "Generated on: ".data := by decide
  have e2 : ("\n\n## Market Research\n" : String).data =
    '\n' :: '\n' :: ("## Market Research".data ++ ['\n']) := by decide
  have e3 : ("\n\n## Customer Analysis\n" : String).data =
    '\n' :: '\n' :: ("## Customer Analysis".data ++ ['\n']) := by decide
  have e4 : ("\n\n## Business Model\n" : String).data =
    '\n' :: '\n' :: ("## Business Model".data ++ ['\n']) := by decide
  have e5 : ("\n\n## Technical Feasibility\n" : String).data =
    '\n' :: '\n' :: ("## Technical Feasibility".data ++ ['\n']) := by decide
  have e6 : ("\n\n## Financial Projections\n" : String).data =
    '\n' :: '\n' :: ("## Financial Projections".data ++ ['\n']) := by decide
  have e7 : ("\n\n## Go-to-Market Strategy\n" : String).data =
    '\n' :: '\n' :: ("## Go-to-Market Strategy".data ++ ['\n']) := by decide
  have e8 : ("\n\n## Risk Assessment\n" : String).data =
    '\n' :: '\n' :: ("## Risk Assessment".data ++ ['\n']) := by decide
  have e9 : ("\n\n## Recommendations\n" : String).data =
    '\n' :: '\n' :: ("## Recommendations".data ++ ['\n']) := by decide
  have e10 : ("\n" : String).data = ['\n'] := by decide
  rw [convert_to_markdown, mdLines]
  simp only [String.data_append, e1, e2, e3, e4, e5, e6, e7, e8, e9, e10,
    dtStr, json_dumps, data_mk, List.cons_append, List.nil_append, List.append_assoc]
  rw [joinLines_cons _ _ (by simp), joinLines_cons _ _ (by simp),
    joinLines_cons _ _ (by simp), joinLines_cons _ _ (by simp)]
  rw [joinLines_render_seg 0 a.market_research _ (by simp),
    joinLines_cons _ _ (by simp), joinLines_cons _ _ (by simp)]
  rw [joinLines_render_seg 0 a.customer_analysis _ (by simp),
    joinLines_cons _ _ (by simp), joinLines_cons _ _ (by simp)]
  rw [joinLines_render_seg 0 a.business_model _ (by simp),
    joinLines_cons _ _ (by simp), joinLines_cons _ _ (by simp)]
  rw [joinLines_render_seg 0 a.technical_feasibility _ (by simp),
    joinLines_cons _ _ (by simp), joinLines_cons _ _ (by simp)]
  rw [joinLines_render_seg 0 a.financial_projections _ (by simp),
    joinLines_cons _ _ (by simp), joinLines_cons _ _ (by simp)]
  rw [joinLines_render_seg 0 a.go_to_market _ (by simp),
    joinLines_cons _ _ (by simp), joinLines_cons _ _ (by simp)]
  rw [joinLines_render_seg 0 a.risk_assessment _ (by simp),
    joinLines_cons _ _ (by simp),
    joinLines_cons _ _ (bulletLines_ne a.recommendations),
    joinLines_bulletLines a.recommendations]
  simp

theorem digit_ne_newline (d : Nat) (h : d < 10) : Char.ofNat (48 + d) ≠ '\n' := by
  interval_cases d <;> decide

theorem no_newline_natChars (n : Nat) : '\n' ∉ natChars n := by
  induction n using Nat.strong_induction_on with
  | _ n ih =>
    rw [natChars]
    by_cases h : n < 10
    · rw [dif_pos h]
      intro hm
      exact digit_ne_newline n h (List.mem_singleton.mp hm).symm
    · rw [dif_neg h]
      intro hm
      rcases List.mem_append.mp hm with h1 | h1
      · exact ih (n / 10) (Nat.div_lt_self (by omega) (by omega)) h1
      · exact digit_ne_newline (n % 10) (Nat.mod_lt _ (by omega))
          (List.mem_singleton.mp h1).symm

theorem mem_bulletLines (recs : List String) (l : List Char)
    (h : l ∈ bulletLines recs) :
    l = [] ∨ ∃ r ∈ recs, l = '-' :: ' ' :: r.data := by
  cases recs with
  | nil =>
    rw [show bulletLines [] = [[], []] from rfl] at h
    rcases List.mem_cons.mp h with h | h
    · exact Or.inl h
    · exact Or.inl (List.mem_singleton.mp h)
  | cons r rs =>
    rw [show bulletLines (r :: rs) =
      (r :: rs).map (fun x => '-' :: ' ' :: x.data) ++ [[]] from by
        simp [bulletLines]] at h
    rcases List.mem_append.mp h with h | h
    · rcases List.mem_map.mp h with ⟨x, hx, hmap⟩
      exact Or.inr ⟨x, hx, hmap.symm⟩
    · exact Or.inl (List.mem_singleton.mp h)

theorem mdLines_no_newline (a : StartupAnalysis)
    (hrec : ∀ r ∈ a.recommendations, '\n' ∉ r.data) :
    ∀ l ∈ mdLines a, '\n' ∉ l := by
  have hV : ∀ (v : Json), ∀ l ∈ renderLinesV 0 v, '\n' ∉ l :=
    fun v l hl => (((renderLines_props (sizeOf v)).1) v 0 (Nat.le_refl _) l hl).1
  have hB : ∀ l ∈ bulletLines a.recommendations, '\n' ∉ l := by
    intro l hl
    rcases mem_bulletLines _ _ hl with h0 | ⟨r, hr, h0⟩
    · subst h0; simp
    · subst h0
      intro hm
      rcases List.mem_cons.mp hm with hm | hm
      · exact absurd hm.symm (by decide)
      rcases List.mem_cons.mp hm with hm | hm
      · exact absurd hm.symm (by decide)
      · exact hrec r hr hm
  intro l hl
  rw [mdLines] at hl
  simp only [List.append_assoc, List.mem_append, List.mem_cons,
    List.not_mem_nil, or_false, false_or, or_assoc] at hl
  rcases hl with h|h|h|h|h|h|h|h|h|h|h|h|h|h|h|h|h|h|h|h|h|h|h|h|h|h
  all_goals first
    | (subst h; decide)
    | exact hV _ _ h
    | exact hB _ h
    | (subst h; simp [no_newline_natChars])

theorem filter_renderLines (n : Nat) (v : Json) :
    (renderLinesV n v).filter isBulletLine = [] := by
  rw [List.filter_eq_nil_iff]
  intro l hl
  simp [(((renderLines_props (sizeOf v)).1) v n (Nat.le_refl _) l hl).2]

theorem length_filter_bulletLines (recs : List String) :
    ((bulletLines recs).filter isBulletLine).length = recs.length := by
  cases recs with
  | nil => rfl
  | cons r rs =>
    rw [show bulletLines (r :: rs) =
      (r :: rs).map (fun x => '-' :: ' ' :: x.data) ++ [[]] from by
        simp [bulletLines]]
    rw [List.filter_append]
    have hself : ((r :: rs).map (fun x => '-' :: ' ' :: x.data)).filter isBulletLine =
        (r :: rs).map (fun x => '-' :: ' ' :: x.data) := by
      rw [List.filter_eq_self]
      intro l hl
      rcases List.mem_map.mp hl with ⟨x, hx, hmap⟩
      rw [← hmap]
      rfl
    rw [hself]
    simp [List.filter, isBulletLine]

theorem isBulletLine_gen (t : Nat) :
    isBulletLine ("Generated on: ".data ++ natChars t) = false := rfl

theorem filter_bullets_mdLines (a : StartupAnalysis) :
    ((mdLines a).filter isBulletLine).length = a.recommendations.length := by
  have f1 : isBulletLine "# Startup Analysis Report".data = false := by decide
  have f3 : isBulletLine ([] : List Char) = false := rfl
  have f4 : isBulletLine "## Market Research".data = false := by decide
  have f5 : isBulletLine "## Customer Analysis".data = false := by decide
  have f6 : isBulletLine "## Business Model".data = false := by decide
  have f7 : isBulletLine "## Technical Feasibility".data = false := by decide
  have f8 : isBulletLine "## Financial Projections".data = false := by decide
  have f9 : isBulletLine "## Go-to-Market Strategy".data = false := by decide
  have f10 : isBulletLine "## Risk Assessment".data = false := by decide
  have f11 : isBulletLine "## Recommendations".data = false := by decide
  rw [mdLines]
  simp only [List.append_assoc, List.filter_append, List.filter_cons,
    f1, isBulletLine_gen, f3, f4, f5, f6, f7, f8, f9, f10, f11,
    Bool.false_eq_true, if_false, List.filter_nil, filter_renderLines,
    List.nil_append, List.length_append, List.length_nil]
  rw [length_filter_bulletLines]
  simp [isBulletLine]

theorem mdLines_ne (a : StartupAnalysis) : mdLines a ≠ [] := by
  rw [mdLines]
  simp

theorem splitLines_md (a : StartupAnalysis)
    (h : ∀ r ∈ a.recommendations, '\n' ∉ r.data) :
    splitLines (convert_to_markdown a).data = mdLines a := by
  rw [md_data_eq]
  exact splitLines_joinLines _ (mdLines_ne a) (mdLines_no_newline a h)

theorem mdLines_recNl : mdLines recNl =
    ["# Startup Analysis Report".data,
     "Generated on: 0".data, [],
     "## Market Research".data, ['{', '}'], [],
     "## Customer Analysis".data, ['{', '}'], [],
     "## Business Model".data, ['{', '}'], [],
     "## Technical Feasibility".data, ['{', '}'], [],
     "## Financial Projections".data, ['{', '}'], [],
     "## Go-to-Market Strategy".data, ['{', '}'], [],
     "## Risk Assessment".data, ['{', '}'], [],
     "## Recommendations".data, "- x\n- y".data, []] := by
  simp [mdLines, recNl, renderLinesV, natChars, bulletLines]

set_option maxRecDepth 10000 in
/-- C7 (counterexample): the markdown export does NOT always contain
exactly one bullet line per recommendation entry.  For the record
`recNl`, whose single recommendation is the string `x\n- y` (it embeds a
newline followed by a dash), the exported document contains two bullet
lines although the recommendations sequence has one entry: the template
splices each entry verbatim into `- \x7brec\x7d`, so a newline inside an
entry fabricates an extra bullet line. -/
theorem c7_newline_bullet_counterexample :
    ∃ md, export_analysis recNl "markdown" = Except.ok md ∧
      countBullets md.data ≠ recNl.recommendations.length := by
  refine ⟨convert_to_markdown recNl, rfl, ?_⟩
  show countBullets (convert_to_markdown recNl).data ≠ recNl.recommendations.length
  rw [countBullets, md_data_eq, mdLines_recNl]
  decide

/-- C7 (amended): for every analysis record all of whose recommendation
entries are newline-free, `export_analysis record "markdown"` succeeds
and its output contains a heading line for each of the seven sections
and exactly one bullet line (a line starting with a dash and a space)
per entry of the recommendations sequence. -/
theorem c7_markdown_headings_bullets (a : StartupAnalysis)
    (h : ∀ r ∈ a.recommendations, '\n' ∉ r.data) :
    ∃ md, export_analysis a "markdown" = Except.ok md ∧
      ("## Market Research".data ∈ splitLines md.data ∧
       "## Customer Analysis".data ∈ splitLines md.data ∧
       "## Business Model".data ∈ splitLines md.data ∧
       "## Technical Feasibility".data ∈ splitLines md.data ∧
       "## Financial Projections".data ∈ splitLines md.data ∧
       "## Go-to-Market Strategy".data ∈ splitLines md.data ∧
       "## Risk Assessment".data ∈ splitLines md.data) ∧
      countBullets md.data = a.recommendations.length := by
  refine ⟨convert_to_markdown a, rfl, ?_, ?_⟩
  · rw [splitLines_md a h, mdLines]
    refine ⟨?_, ?_, ?_, ?_, ?_, ?_, ?_⟩ <;> simp
  · rw [countBullets, splitLines_md a h]
    exact filter_bullets_mdLines a

/-- C7 witness: the amended theorem applied to the concrete record
`recW`, whose single recommendation `Test recommendation` is
newline-free. -/
theorem c7_markdown_headings_bullets_witness :
    (∀ r ∈ recW.recommendations, '\n' ∉ r.data) ∧
    ∃ md, export_analysis recW "markdown" = Except.ok md ∧
      ("## Market Research".data ∈ splitLines md.data ∧
       "## Customer Analysis".data ∈ splitLines md.data ∧
       "## Business Model".data ∈ splitLines md.data ∧
       "## Technical Feasibility".data ∈ splitLines md.data ∧
       "## Financial Projections".data ∈ splitLines md.data ∧
       "## Go-to-Market Strategy".data ∈ splitLines md.data ∧
       "## Risk Assessment".data ∈ splitLines md.data) ∧
      countBullets md.data = recW.recommendations.length :=
  ⟨by decide, c7_markdown_headings_bullets recW (by decide)⟩
